import Mathlib

/-!
# uEspConfigLib: configuration registry, its line-oriented text protocol and the EEPROM backend

Shallow embedding of `src/uEspConfigLib.cpp`, `src/uEspConfigLibFSEEPROM.cpp` and the
`status()` accessor of `src/uEspConfigLibFSInterface.h`.

* A `char *` or Arduino `String` value is the list of its characters before the
  terminator (`CStr`); `strcmp(a, b) == 0` is equality of those lists.
* The singly linked list `uEspConfigLibList * list` is a Lean list of nodes, the
  `next` pointer being the tail; `list == 0` is the empty list.
* Methods that mutate the object take the option list and return the new one,
  paired with the C++ return value when there is one.
* The storage backend `_fs` is a record of the five virtual methods over an
  explicit backend state.
-/

namespace uEspConfigLib

/-- Characters of a C string or Arduino `String`, terminator excluded. -/
abbrev CStr := List Char

/-- One node of the option list, `struct uEspConfigLibList`, without its `next` pointer. -/
structure uEspConfigLibList where
  name : CStr
  description : CStr
  defaultValue : CStr
  value : CStr
  option : Nat
deriving DecidableEq, Repr

/-- Node built by the two allocation paths of `addOption`: name, description and default are
copied, the current value is a copy of the default. -/
def newSlot (name description defaultValue : CStr) (option : Nat) : uEspConfigLibList :=
  { name := name, description := description, defaultValue := defaultValue,
    value := defaultValue, option := option }

/-- The statement `list->option = option` of the redefinition branch: it writes the flags of the
head node of the list. -/
def setHeadOption (option : Nat) : List uEspConfigLibList → List uEspConfigLibList
  | [] => []
  | head :: rest => { head with option := option } :: rest

/-- Search loop of `addOption`: the first node whose name equals `name` gets the new
description, default and value; `none` when the loop runs off the end of the list. -/
def addOptionLoop (name description defaultValue : CStr) :
    List uEspConfigLibList → Option (List uEspConfigLibList)
  | [] => none
  | slot :: rest =>
    if slot.name = name then
      some ({ slot with description := description, defaultValue := defaultValue,
                        value := defaultValue } :: rest)
    else
      (addOptionLoop name description defaultValue rest).map (fun r => slot :: r)

/-- Embedding of `uEspConfigLib::addOption`. -/
def addOption (list : List uEspConfigLibList) (name description defaultValue : CStr)
    (option : Nat) : List uEspConfigLibList :=
  match list with
  | [] => [newSlot name description defaultValue option]
  | _ :: _ =>
    match addOptionLoop name description defaultValue list with
    | some updated => setHeadOption option updated
    | none => list ++ [newSlot name description defaultValue option]

/-- Embedding of `uEspConfigLib::set`: the return value and the list afterwards. -/
def set : List uEspConfigLibList → CStr → CStr → Bool × List uEspConfigLibList
  | [], _, _ => (false, [])
  | slot :: rest, name, value =>
    if slot.name = name then
      (true, { slot with value := value } :: rest)
    else
      ((set rest name value).1, slot :: (set rest name value).2)

/-- Embedding of `uEspConfigLib::getPointer`: `none` is the null pointer. -/
def getPointer : List uEspConfigLibList → CStr → Option CStr
  | [], _ => none
  | slot :: rest, name => if slot.name = name then some slot.value else getPointer rest name

/-- Embedding of `uEspConfigLib::clear`: the return value and the list afterwards. -/
def clear : List uEspConfigLibList → CStr → Bool × List uEspConfigLibList
  | [], _ => (false, [])
  | slot :: rest, name =>
    if slot.name = name then
      (true, { slot with value := slot.defaultValue } :: rest)
    else
      ((clear rest name).1, slot :: (clear rest name).2)

/-- Arguments of one `addOption` call. -/
structure OptionDef where
  name : CStr
  description : CStr
  defaultValue : CStr
  option : Nat
deriving DecidableEq, Repr

/-- A sequence of `addOption` calls applied in order to a registry. -/
def defineAll (list : List uEspConfigLibList) (defs : List OptionDef) :
    List uEspConfigLibList :=
  defs.foldl (fun l d => addOption l d.name d.description d.defaultValue d.option) list

/-- Names of the registry in list order. -/
def names (list : List uEspConfigLibList) : List CStr :=
  list.map (fun s => s.name)

/-! ## Arduino `String` primitives used by `_parseConfigLine` -/

/-- Modelled from the spec: the C `isspace` test behind Arduino `String::trim` (the Arduino core
is not part of the repository); whitespace is space, tab, line feed, vertical tab, form feed and
carriage return. -/
def isspace (c : Char) : Bool :=
  c == ' ' || c == '\t' || c == '\n' || c == '\x0b' || c == '\x0c' || c == '\r'

/-- Modelled from the spec: Arduino `String::trim`, which removes leading and trailing
whitespace. -/
def trim (s : CStr) : CStr :=
  ((s.dropWhile isspace).reverse.dropWhile isspace).reverse

/-- Modelled from the spec: Arduino `String::startsWith`. -/
def startsWith : CStr → CStr → Bool
  | _, [] => true
  | [], _ :: _ => false
  | c :: cs, p :: ps => c == p && startsWith cs ps

/-- Modelled from the spec: Arduino `String::indexOf(char)`, the index of the first occurrence
or `-1`. -/
def indexOf : CStr → Char → Int
  | [], _ => -1
  | c :: cs, ch =>
    if c = ch then 0 else if indexOf cs ch < 0 then -1 else indexOf cs ch + 1

/-- Modelled from the spec: Arduino `String::substring(left, right)`, the characters at indices
`left ≤ i < right`; the bounds are swapped when `left > right` and `right` is clipped to the
length. -/
def substring (s : CStr) (left right : Nat) : CStr :=
  if left > right then (s.drop right).take (left - right)
  else (s.drop left).take (right - left)

/-- Modelled from the spec: Arduino `String::substring(left)`, which is
`substring(left, length)`. -/
def substringFrom (s : CStr) (left : Nat) : CStr :=
  substring s left s.length

/-- Embedding of `uEspConfigLib::_parseConfigLine`. -/
def _parseConfigLine (list : List uEspConfigLibList) (line : CStr) : List uEspConfigLibList :=
  let line := trim line
  if startsWith line ";".toList || startsWith line "#".toList || startsWith line "//".toList then
    list
  else
    let pos : Int := indexOf line '='
    if pos < 2 then
      list
    else
      let varName := trim (substring line 0 (pos - 1).toNat)
      let value := trim (substringFrom line (pos + 1).toNat)
      (set list varName value).2

/-! ## Storage backend and the file operations -/

/-- The virtual methods of `uEspConfigLibFSInterface` over a backend state `σ`. `readLine`
receives the caller's `String` and returns its new content. -/
structure FSInterface (σ : Type) where
  openToRead : σ → Bool × σ
  openToWrite : σ → Bool × σ
  readLine : σ → CStr → Bool × CStr × σ
  write : σ → CStr → Bool × σ
  closeFile : σ → Bool × σ

/-- A run of `_fs->write(...)` calls whose results are discarded. -/
def writeAll {σ : Type} (fs : FSInterface σ) (st : σ) (pieces : List CStr) : σ :=
  pieces.foldl (fun s d => (fs.write s d).2) st

/-- The six banner strings `saveConfigFile` writes first. -/
def bannerWrites : List CStr :=
  [ "# uConfigLib Configuration file\n".toList,
    "# Visit https://github.com/Naguissa/uEspConfigLib for details\n".toList,
    "# Syntax:\n".toList,
    "# variable = value\n".toList,
    "# (spaces and empty lines doesn\x27t care)\n".toList,
    "# This file comments: lines starting with #, ; or //\n".toList ]

/-- The eleven strings `saveConfigFile` writes for one option, in order. -/
def slotWrites (slot : uEspConfigLibList) : List CStr :=
  [ "\n# ".toList, slot.name, " -- ".toList, slot.description,
    "\n# Default value: ".toList, slot.defaultValue, "\n".toList,
    slot.name, " = ".toList, slot.value, "\n".toList ]

/-- Embedding of `uEspConfigLib::saveConfigFile`: the return value and the backend state
afterwards. The registry is not written to. -/
def saveConfigFile {σ : Type} (fs : FSInterface σ) (st : σ) (list : List uEspConfigLibList) :
    Bool × σ :=
  let r := fs.openToWrite st
  if !r.1 then (false, r.2)
  else
    let st1 := writeAll fs r.2 bannerWrites
    let st2 := list.foldl (fun s slot => writeAll fs s (slotWrites slot)) st1
    (true, (fs.closeFile st2).2)

/-- The `while (_fs->readLine(&line)) _parseConfigLine(line);` loop of `loadConfigFile`, bounded
by `fuel` iterations; `none` when the bound is reached before `readLine` fails. -/
def loadLoop {σ : Type} (fs : FSInterface σ) :
    Nat → σ → CStr → List uEspConfigLibList → Option (σ × List uEspConfigLibList)
  | 0, _, _, _ => none
  | fuel + 1, st, line, list =>
    let r := fs.readLine st line
    if r.1 then loadLoop fs fuel r.2.2 r.2.1 (_parseConfigLine list r.2.1)
    else some (r.2.2, list)

/-- Embedding of `uEspConfigLib::loadConfigFile`: return value, backend state and registry
afterwards; `none` when the read loop does not end within `fuel` iterations. -/
def loadConfigFile {σ : Type} (fs : FSInterface σ) (fuel : Nat) (st : σ)
    (list : List uEspConfigLibList) : Option (Bool × σ × List uEspConfigLibList) :=
  let r := fs.openToRead st
  if !r.1 then some (false, r.2, list)
  else
    match loadLoop fs fuel r.2 [] list with
    | none => none
    | some (st1, list1) => some (true, (fs.closeFile st1).2, list1)

/-- State of a line-faithful backend: the text written so far and the part not yet read. -/
structure LineStore where
  file : CStr
  unread : CStr
deriving DecidableEq, Repr

/-- Modelled from the spec: a line-faithful backend, one that returns line by line, split at the
line feed, exactly the text written. Opening for write truncates, `write` appends, opening for
read rewinds, and `readLine` fails when nothing is left, otherwise yields the characters up to
the next line feed and consumes that line feed. -/
def lineStoreFS : FSInterface LineStore where
  openToRead := fun st => (true, { st with unread := st.file })
  openToWrite := fun st => (true, { st with file := [] })
  readLine := fun st line =>
    if st.unread = [] then (false, line, st)
    else (true, st.unread.takeWhile (fun c => c != '\n'),
          { st with unread := (st.unread.dropWhile (fun c => c != '\n')).drop 1 })
  write := fun st d => (true, { st with file := st.file ++ d })
  closeFile := fun st => (true, st)

/-- Registries that arise from the empty one by finitely many calls of `addOption`, `set`,
`clear`, `_parseConfigLine` and `loadConfigFile` (on any backend, whenever it returns). -/
inductive Reachable : List uEspConfigLibList → Prop
  | empty : Reachable []
  | addOption (list : List uEspConfigLibList) (name description defaultValue : CStr)
      (option : Nat) :
      Reachable list → Reachable (uEspConfigLib.addOption list name description defaultValue option)
  | set (list : List uEspConfigLibList) (name value : CStr) :
      Reachable list → Reachable (uEspConfigLib.set list name value).2
  | clear (list : List uEspConfigLibList) (name : CStr) :
      Reachable list → Reachable (uEspConfigLib.clear list name).2
  | parseConfigLine (list : List uEspConfigLibList) (line : CStr) :
      Reachable list → Reachable (_parseConfigLine list line)
  | loadConfigFile {σ : Type} (fs : FSInterface σ) (fuel : Nat) (st st1 : σ) (result : Bool)
      (list list1 : List uEspConfigLibList) :
      Reachable list → uEspConfigLib.loadConfigFile fs fuel st list = some (result, st1, list1) →
      Reachable list1

/-- Option definition that rebuilds a node: its name, description, default and flags. -/
def toDef (slot : uEspConfigLibList) : OptionDef :=
  { name := slot.name, description := slot.description, defaultValue := slot.defaultValue,
    option := slot.option }

/-- No whitespace at the first and none at the last position; the empty string qualifies. -/
def noOuterSpace (s : CStr) : Bool :=
  (match s.head? with
   | some c => !isspace c
   | none => true) &&
  (match s.getLast? with
   | some c => !isspace c
   | none => true)

/-- Whether a string starts with one of the comment markers `;`, `#` or `//`. -/
def isComment (s : CStr) : Bool :=
  startsWith s ";".toList || startsWith s "#".toList || startsWith s "//".toList

/-! ## Text written by `saveConfigFile`, line by line -/

/-- The banner as lines, line feeds removed. -/
def bannerLines : List CStr :=
  [ "# uConfigLib Configuration file".toList,
    "# Visit https://github.com/Naguissa/uEspConfigLib for details".toList,
    "# Syntax:".toList,
    "# variable = value".toList,
    "# (spaces and empty lines doesn\x27t care)".toList,
    "# This file comments: lines starting with #, ; or //".toList ]

/-- The four lines written for one option when its strings contain no line feed: an empty line,
the two comment lines and the assignment. -/
def slotLines (slot : uEspConfigLibList) : List CStr :=
  [ [],
    "# ".toList ++ slot.name ++ " -- ".toList ++ slot.description,
    "# Default value: ".toList ++ slot.defaultValue,
    slot.name ++ " = ".toList ++ slot.value ]

/-- Text made of the given lines, each followed by a line feed. -/
def withLineFeeds (ls : List CStr) : CStr :=
  (ls.map (fun l => l ++ ['\n'])).flatten

/-- A plain option name: non-empty, no whitespace at either end, no line terminator, no `=`,
no comment marker at its start. -/
def plainName (s : CStr) : Bool :=
  decide (s ≠ []) && noOuterSpace s && decide ('\n' ∉ s) && decide ('\r' ∉ s) &&
    decide ('=' ∉ s) && !isComment s

/-- A plain value: no whitespace at either end and no line terminator; it may be empty. -/
def plainValue (s : CStr) : Bool :=
  noOuterSpace s && decide ('\n' ∉ s) && decide ('\r' ∉ s)

/-- A registry of two plain options; the description of the second contains a line feed
followed by an assignment to the first. -/
def injectingRegistry : List uEspConfigLibList :=
  [ { name := "aa".toList, description := "first".toList, defaultValue := "0".toList,
      value := "1".toList, option := 0 },
    { name := "bb".toList, description := "x\naa = evil".toList, defaultValue := "0".toList,
      value := "2".toList, option := 0 } ]

/-- A registry of two plain options whose descriptions and defaults hold comment markers, `=`
and outer whitespace but no line feed. -/
def singleLineRegistry : List uEspConfigLibList :=
  [ { name := "a".toList, description := " ; x = y # //".toList, defaultValue := "a = b ".toList,
      value := "k=v".toList, option := 0 },
    { name := "wifi ssid".toList, description := "".toList, defaultValue := "#".toList,
      value := "".toList, option := 1 } ]

/-! ## Backend calls issued by the file operations -/

/-- One call of a virtual method of the storage backend. -/
inductive FSCall where
  | openToRead
  | openToWrite
  | readLine
  | write (data : CStr)
  | closeFile
deriving DecidableEq, Repr

/-- The backend `fs` with every call appended to a log; results and inner state are those of
`fs`. -/
def recordFS {σ : Type} (fs : FSInterface σ) : FSInterface (σ × List FSCall) where
  openToRead := fun s => ((fs.openToRead s.1).1, ((fs.openToRead s.1).2, s.2 ++ [FSCall.openToRead]))
  openToWrite := fun s =>
    ((fs.openToWrite s.1).1, ((fs.openToWrite s.1).2, s.2 ++ [FSCall.openToWrite]))
  readLine := fun s line =>
    ((fs.readLine s.1 line).1, (fs.readLine s.1 line).2.1,
      ((fs.readLine s.1 line).2.2, s.2 ++ [FSCall.readLine]))
  write := fun s d => ((fs.write s.1 d).1, ((fs.write s.1 d).2, s.2 ++ [FSCall.write d]))
  closeFile := fun s => ((fs.closeFile s.1).1, ((fs.closeFile s.1).2, s.2 ++ [FSCall.closeFile]))

/-- The strings passed to `write`, in call order. -/
def writesOf : List FSCall → List CStr
  | [] => []
  | FSCall.write d :: rest => d :: writesOf rest
  | _ :: rest => writesOf rest

/-- The text of one option as the specification gives it: the comment line with name and
description, the comment line with the default, and the assignment line, after an empty line. -/
def block (o : uEspConfigLibList) : CStr :=
  "\n# ".toList ++ o.name ++ " -- ".toList ++ o.description ++ "\n# Default value: ".toList ++
    o.defaultValue ++ "\n".toList ++ o.name ++ " = ".toList ++ o.value ++ "\n".toList

/-- Whether `readLine` of the backend succeeds exactly `n` times in a row from state `st` (the
caller's string being `line`) and fails on the next call. -/
def firstFailAt {σ : Type} (fs : FSInterface σ) : Nat → σ → CStr → Bool
  | 0, st, line => !(fs.readLine st line).1
  | n + 1, st, line =>
    (fs.readLine st line).1 && firstFailAt fs n (fs.readLine st line).2.2 (fs.readLine st line).2.1

/-- A backend whose `openToWrite` and `write` succeed and whose `closeFile` fails. -/
def failingCloseFS : FSInterface Unit where
  openToRead := fun s => (true, s)
  openToWrite := fun s => (true, s)
  readLine := fun s line => (false, line, s)
  write := fun s _ => (true, s)
  closeFile := fun s => (false, s)

/-! ## EEPROM backend, `src/uEspConfigLibFSEEPROM.cpp`

A `byte` is identified with the character of the same code. The staging buffer `_buffer` and
the memory of the chip are functions from index to byte. The cursor `_position` is a natural
number: the addresses of the chip stay far below the range of `unsigned int`. -/

/-- Size of the staging buffer, `uEspConfigLibFSEEPROM_BUFFER_SIZE`. -/
abbrev uEspConfigLibFSEEPROM_BUFFER_SIZE : Nat := 128

/-- Status code `uEspConfigLibFS_STATUS_NOINIT`. -/
abbrev uEspConfigLibFS_STATUS_NOINIT : Nat := 0

/-- Status code `uEspConfigLibFS_STATUS_CLOSED`. -/
abbrev uEspConfigLibFS_STATUS_CLOSED : Nat := 1

/-- Status code `uEspConfigLibFS_STATUS_OPEN_READ`. -/
abbrev uEspConfigLibFS_STATUS_OPEN_READ : Nat := 2

/-- Status code `uEspConfigLibFS_STATUS_OPEN_WRITE`. -/
abbrev uEspConfigLibFS_STATUS_OPEN_WRITE : Nat := 3

/-- Status code `uEspConfigLibFS_STATUS_ERROR`. -/
abbrev uEspConfigLibFS_STATUS_ERROR : Nat := 9

/-- Status code `uEspConfigLibFS_STATUS_FATAL`. -/
abbrev uEspConfigLibFS_STATUS_FATAL : Nat := 10

/-- One call of the EEPROM driver. -/
inductive EepromCall where
  | read (address n : Nat)
  | write (address : Nat) (data : List Char)
deriving DecidableEq, Repr

/-- Modelled from the spec: the backing medium behind `uEEPROMLib` (the driver is not part of
the repository), a byte-addressable array whose reads and writes may fail. `cells` is the
content, `readOk` and `writeOk` decide from the calls made so far and the address whether the
next read or write succeeds, `calls` lists the driver calls made so far. -/
structure Medium where
  cells : Nat → Char
  readOk : List EepromCall → Nat → Bool
  writeOk : List EepromCall → Nat → Bool
  calls : List EepromCall

/-- The `n` bytes `f a, f (a + 1), ...` of a memory `f`. -/
def bytesAt (f : Nat → Char) : Nat → Nat → List Char
  | _, 0 => []
  | a, n + 1 => f a :: bytesAt f (a + 1) n

/-- Modelled from the spec: `uEEPROMLib::eeprom_read(address, buffer, n)`. A successful read
copies the `n` bytes at `address` to the start of the buffer; a failed read leaves the buffer as
it was. -/
def eeprom_read (m : Medium) (address : Nat) (buffer : Nat → Char) (n : Nat) :
    Bool × (Nat → Char) × Medium :=
  if m.readOk m.calls address then
    (true, fun i => if i < n then m.cells (address + i) else buffer i,
      { m with calls := m.calls ++ [EepromCall.read address n] })
  else
    (false, buffer, { m with calls := m.calls ++ [EepromCall.read address n] })

/-- Modelled from the spec: `uEEPROMLib::eeprom_write(address, data, n)`, given the `n` bytes
as a list. A successful write stores them at `address`; a failed write leaves the content as it
was. -/
def eeprom_write (m : Medium) (address : Nat) (data : List Char) : Bool × Medium :=
  if m.writeOk m.calls address then
    (true, { m with
      cells := fun a =>
        if address ≤ a ∧ a < address + data.length then data.getD (a - address) '\x00'
        else m.cells a
      calls := m.calls ++ [EepromCall.write address data] })
  else
    (false, { m with calls := m.calls ++ [EepromCall.write address data] })

/-- Data members of `class uEspConfigLibFSEEPROM`; `_eeprom` is the medium behind the driver
pointer. -/
structure uEspConfigLibFSEEPROM where
  _buffer : Nat → Char
  _position : Nat
  _bufferPosition : Nat
  _status : Nat
  _saveInComment : Bool
  _saveLineStart : Bool
  _eeprom : Medium

namespace uEspConfigLibFSEEPROM

/-- Embedding of `uEspConfigLibFSEEPROM::openToRead`. -/
def openToRead (st : uEspConfigLibFSEEPROM) : Bool × uEspConfigLibFSEEPROM :=
  if st._status = uEspConfigLibFS_STATUS_FATAL then (false, st)
  else (true, { st with _position := 0, _bufferPosition := 0,
                        _status := uEspConfigLibFS_STATUS_OPEN_READ })

/-- Embedding of `uEspConfigLibFSEEPROM::openToWrite`. -/
def openToWrite (st : uEspConfigLibFSEEPROM) : Bool × uEspConfigLibFSEEPROM :=
  if st._status = uEspConfigLibFS_STATUS_FATAL then (false, st)
  else (true, { st with _position := 0, _bufferPosition := 0, _saveInComment := false,
                        _saveLineStart := true, _status := uEspConfigLibFS_STATUS_OPEN_WRITE })

/-- Inner `for` loop of `readLine` over the bytes of one block: every byte is appended to the
line and advances the cursor; a null byte returns false, a line feed or carriage return returns
`line->length() > 0`; `none` when the block ends without a `return`. -/
def scanBlock : List Char → CStr → Nat → Option Bool × CStr × Nat
  | [], line, position => (none, line, position)
  | actualChar :: rest, line, position =>
    if actualChar = '\x00' then (some false, line ++ [actualChar], position + 1)
    else if actualChar = '\n' ∨ actualChar = '\r' then
      (some (decide ((line ++ [actualChar]).length > 0)), line ++ [actualChar], position + 1)
    else scanBlock rest (line ++ [actualChar]) (position + 1)

/-- Outer `for` loop of `readLine`, with the number of iterations left. -/
def readLineLoop : Nat → uEspConfigLibFSEEPROM → CStr → Bool × CStr × uEspConfigLibFSEEPROM
  | 0, st, line => (false, line, st)
  | loops + 1, st, line =>
    let r := eeprom_read st._eeprom st._position st._buffer uEspConfigLibFSEEPROM_BUFFER_SIZE
    if !r.1 then (false, line, { st with _buffer := r.2.1, _eeprom := r.2.2 })
    else
      let s := scanBlock (bytesAt r.2.1 0 uEspConfigLibFSEEPROM_BUFFER_SIZE) line st._position
      match s.1 with
      | some result =>
        (result, s.2.1, { st with _buffer := r.2.1, _eeprom := r.2.2, _position := s.2.2 })
      | none =>
        readLineLoop loops { st with _buffer := r.2.1, _eeprom := r.2.2, _position := s.2.2 }
          s.2.1

/-- Embedding of `uEspConfigLibFSEEPROM::readLine`: return value, the caller's string and the
store afterwards. -/
def readLine (st : uEspConfigLibFSEEPROM) (line : CStr) :
    Bool × CStr × uEspConfigLibFSEEPROM :=
  if st._status ≠ uEspConfigLibFS_STATUS_OPEN_READ then (false, line, st)
  else readLineLoop 400 st []

/-- Embedding of `uEspConfigLibFSEEPROM::_writeFlush`. -/
def _writeFlush (st : uEspConfigLibFSEEPROM) : Bool × uEspConfigLibFSEEPROM :=
  if st._status ≠ uEspConfigLibFS_STATUS_OPEN_WRITE ∨ st._bufferPosition = 0 then (false, st)
  else if st._bufferPosition < uEspConfigLibFSEEPROM_BUFFER_SIZE then
    let buffer := Function.update st._buffer st._bufferPosition '\x00'
    let r := eeprom_write st._eeprom st._position (bytesAt buffer 0 (st._bufferPosition + 1))
    (r.1, { st with _buffer := buffer, _eeprom := r.2,
                    _position := st._position + st._bufferPosition, _bufferPosition := 0 })
  else
    let r := eeprom_write st._eeprom st._position (bytesAt st._buffer 0 st._bufferPosition)
    (r.1, { st with _eeprom := r.2, _position := st._position + st._bufferPosition,
                    _bufferPosition := 0 })

/-- Body of the `for` loop of `write` after the flush test, for the byte `c` followed by
`rest`; the result is the store for the next iteration. -/
def writeByte (st : uEspConfigLibFSEEPROM) (c : Char) (rest : List Char) :
    uEspConfigLibFSEEPROM :=
  if c = '\x00' then st
  else if st._saveLineStart = true ∧
      (c = '#' ∨ c = ';' ∨ (c = '/' ∧ rest.head? = some '/')) then
    { st with _saveInComment := true }
  else
    let st1 :=
      if st._saveInComment = false then
        { st with _buffer := Function.update st._buffer st._bufferPosition c,
                  _bufferPosition := st._bufferPosition + 1, _saveLineStart := false }
      else st
    if c = '\n' ∨ c = '\r' then { st1 with _saveInComment := false, _saveLineStart := true }
    else st1

/-- The `for` loop of `write` over the remaining bytes of `data`. -/
def writeLoop : List Char → uEspConfigLibFSEEPROM → Bool × uEspConfigLibFSEEPROM
  | [], st => (true, st)
  | c :: rest, st =>
    if st._bufferPosition ≥ uEspConfigLibFSEEPROM_BUFFER_SIZE then
      if !(_writeFlush st).1 then (false, (_writeFlush st).2)
      else writeLoop rest (writeByte (_writeFlush st).2 c rest)
    else writeLoop rest (writeByte st c rest)

/-- Embedding of `uEspConfigLibFSEEPROM::write`. -/
def write (st : uEspConfigLibFSEEPROM) (data : CStr) : Bool × uEspConfigLibFSEEPROM :=
  if st._status ≠ uEspConfigLibFS_STATUS_OPEN_WRITE then (false, st)
  else writeLoop data st

/-- Embedding of `uEspConfigLibFSEEPROM::closeFile`. -/
def closeFile (st : uEspConfigLibFSEEPROM) : Bool × uEspConfigLibFSEEPROM :=
  if st._status = uEspConfigLibFS_STATUS_OPEN_WRITE ∧ st._bufferPosition > 0 then
    _writeFlush { st with _status := uEspConfigLibFS_STATUS_CLOSED }
  else if st._status = uEspConfigLibFS_STATUS_OPEN_READ ∨
      st._status = uEspConfigLibFS_STATUS_OPEN_WRITE then
    (true, { st with _status := uEspConfigLibFS_STATUS_CLOSED })
  else (false, st)

/-- The lines `readLine` returns, called again and again until it fails or `n` calls were
made, and the store after the last call. -/
def readLines : Nat → uEspConfigLibFSEEPROM → List CStr × uEspConfigLibFSEEPROM
  | 0, st => ([], st)
  | n + 1, st =>
    if (readLine st []).1 then
      ((readLine st []).2.1 :: (readLines n (readLine st []).2.2).1,
        (readLines n (readLine st []).2.2).2)
    else ([], (readLine st []).2.2)

end uEspConfigLibFSEEPROM

/-- An EEPROM chip filled with null bytes whose reads and writes all succeed, no call made. -/
def blankMedium : Medium :=
  { cells := fun _ => '\x00', readOk := fun _ _ => true, writeOk := fun _ _ => true, calls := [] }

/-- The store right after the three-argument constructor, on the medium `m`: status CLOSED; the
members the constructor does not assign have their in-class initialisers, the buffer is
arbitrary. -/
def constructed (m : Medium) (buffer : Nat → Char) : uEspConfigLibFSEEPROM :=
  { _buffer := buffer, _position := 0, _bufferPosition := 0,
    _status := uEspConfigLibFS_STATUS_CLOSED, _saveInComment := false, _saveLineStart := true,
    _eeprom := m }

/-- The store right after the two-argument constructor `uEspConfigLibFSEEPROM(init, address)`:
its body only builds and drops a temporary object, so `_status` and `_eeprom` of the object are
left unassigned. `status` is the value `_status` happens to hold and `m` the medium behind
whatever `_eeprom` happens to point to; the other members have their in-class initialisers, the
buffer is arbitrary. -/
def constructedDefault (status : Nat) (m : Medium) (buffer : Nat → Char) :
    uEspConfigLibFSEEPROM :=
  { _buffer := buffer, _position := 0, _bufferPosition := 0, _status := status,
    _saveInComment := false, _saveLineStart := true, _eeprom := m }

/-- The EEPROM store as a storage backend: the five virtual methods of the interface
dispatched to `uEspConfigLibFSEEPROM`. -/
def eepromFS : FSInterface uEspConfigLibFSEEPROM where
  openToRead := uEspConfigLibFSEEPROM.openToRead
  openToWrite := uEspConfigLibFSEEPROM.openToWrite
  readLine := uEspConfigLibFSEEPROM.readLine
  write := uEspConfigLibFSEEPROM.write
  closeFile := uEspConfigLibFSEEPROM.closeFile

/-- The bytes that stop the scan of `readLine`: null, line feed and carriage return. -/
def stopsScan (c : Char) : Bool :=
  c == '\x00' || c == '\n' || c == '\r'

/-- A store constructed on a blank medium. -/
def freshStore : uEspConfigLibFSEEPROM :=
  constructed blankMedium (fun _ => '\x00')

/-- The store after `openToWrite(); write(data);` on a fresh store. -/
def writeSession (data : CStr) : uEspConfigLibFSEEPROM :=
  (uEspConfigLibFSEEPROM.write (uEspConfigLibFSEEPROM.openToWrite freshStore).2 data).2

/-- The store after `openToWrite(); write(data); closeFile(); openToRead();` on a fresh
store. -/
def reopened (data : CStr) : uEspConfigLibFSEEPROM :=
  (uEspConfigLibFSEEPROM.openToRead (uEspConfigLibFSEEPROM.closeFile (writeSession data)).2).2

/-- A payload of exactly 128 bytes: sixteen complete lines of seven letters. -/
def blockPayload : CStr :=
  (List.replicate 16 "abcdefg\n".toList).flatten

/-- A store open for reading at cursor 0 on a medium that holds an empty line followed by the
line `ab`. -/
def emptyLineStore : uEspConfigLibFSEEPROM :=
  (uEspConfigLibFSEEPROM.openToRead (constructed
    { blankMedium with cells := fun a => "\nab\n".toList.getD a '\x00' } (fun _ => '\x00'))).2

/-- The store after one successful block read of `readLine` at the cursor: the buffer holds the
block and the driver call is logged. -/
def afterBlockRead (st : uEspConfigLibFSEEPROM) : uEspConfigLibFSEEPROM :=
  { st with
    _buffer := (eeprom_read st._eeprom st._position st._buffer
      uEspConfigLibFSEEPROM_BUFFER_SIZE).2.1
    _eeprom := { st._eeprom with
      calls := st._eeprom.calls
        ++ [EepromCall.read st._position uEspConfigLibFSEEPROM_BUFFER_SIZE] } }

/-- The store after one failed block read of `readLine` at the cursor: only the driver call is
logged. -/
def afterFailedRead (st : uEspConfigLibFSEEPROM) : uEspConfigLibFSEEPROM :=
  { st with
    _eeprom := { st._eeprom with
      calls := st._eeprom.calls
        ++ [EepromCall.read st._position uEspConfigLibFSEEPROM_BUFFER_SIZE] } }

/-- A store open for reading at cursor 0 on a medium that holds `ab`, a line feed, `cd` and
then null bytes. -/
def twoLineStore : uEspConfigLibFSEEPROM :=
  (uEspConfigLibFSEEPROM.openToRead (constructed
    { blankMedium with cells := fun a => "ab\ncd".toList.getD a '\x00' } (fun _ => '\x00'))).2

/-- A store open for reading at cursor 0 on a medium filled with the letter `x`. -/
def unterminatedStore : uEspConfigLibFSEEPROM :=
  (uEspConfigLibFSEEPROM.openToRead (constructed
    { blankMedium with cells := fun _ => 'x' } (fun _ => '\x00'))).2

/-- A store open for reading at cursor 0 on a medium whose reads fail. -/
def unreadableStore : uEspConfigLibFSEEPROM :=
  (uEspConfigLibFSEEPROM.openToRead (constructed
    { blankMedium with readOk := fun _ _ => false } (fun _ => '\x00'))).2

/-! ## The `status()` accessor of the backend interface -/

/-- Data member `_status` of the base class `uEspConfigLibFSInterface`. It is private and no
constructor or method assigns it. -/
structure uEspConfigLibFSInterface where
  _status : Nat

/-- Embedding of `uEspConfigLibFSInterface::status`: it returns the `_status` member of the base
class. -/
def uEspConfigLibFSInterface.status (base : uEspConfigLibFSInterface) : Nat :=
  base._status

/-- An object of class `uEspConfigLibFSEEPROM`: the sub-object of the base class and the
members the derived class declares, among them its own `_status`. -/
structure EepromObject where
  base : uEspConfigLibFSInterface
  derived : uEspConfigLibFSEEPROM

namespace EepromObject

/-- The object after construction on the medium `m`; `indeterminate` is the value the
unassigned `_status` of the base class happens to hold. -/
def construct (indeterminate : Nat) (m : Medium) (buffer : Nat → Char) : EepromObject :=
  { base := { _status := indeterminate }, derived := constructed m buffer }

/-- The accessor `status()` called on the object. -/
def status (o : EepromObject) : Nat :=
  o.base.status

/-- The method `openToRead` called on the object. -/
def openToRead (o : EepromObject) : Bool × EepromObject :=
  ((uEspConfigLibFSEEPROM.openToRead o.derived).1,
    { o with derived := (uEspConfigLibFSEEPROM.openToRead o.derived).2 })

/-- The method `openToWrite` called on the object. -/
def openToWrite (o : EepromObject) : Bool × EepromObject :=
  ((uEspConfigLibFSEEPROM.openToWrite o.derived).1,
    { o with derived := (uEspConfigLibFSEEPROM.openToWrite o.derived).2 })

/-- The method `closeFile` called on the object. -/
def closeFile (o : EepromObject) : Bool × EepromObject :=
  ((uEspConfigLibFSEEPROM.closeFile o.derived).1,
    { o with derived := (uEspConfigLibFSEEPROM.closeFile o.derived).2 })

end EepromObject

/-! ## Index-checked view of the staging buffer -/

/-- A store `_buffer[index] = c` into the 128-byte staging buffer: `none` when the index is
outside the array. -/
def storeChecked (buffer : Nat → Char) (index : Nat) (c : Char) : Option (Nat → Char) :=
  if index < uEspConfigLibFSEEPROM_BUFFER_SIZE then some (Function.update buffer index c)
  else none

namespace uEspConfigLibFSEEPROM

/-- The method `_writeFlush` with its store of the null sentinel checked against the array
bound. -/
def _writeFlushChecked (st : uEspConfigLibFSEEPROM) : Option (Bool × uEspConfigLibFSEEPROM) :=
  if st._status ≠ uEspConfigLibFS_STATUS_OPEN_WRITE ∨ st._bufferPosition = 0 then some (false, st)
  else if st._bufferPosition < uEspConfigLibFSEEPROM_BUFFER_SIZE then
    match storeChecked st._buffer st._bufferPosition '\x00' with
    | none => none
    | some buffer =>
      let r := eeprom_write st._eeprom st._position (bytesAt buffer 0 (st._bufferPosition + 1))
      some (r.1, { st with _buffer := buffer, _eeprom := r.2,
                           _position := st._position + st._bufferPosition,
                           _bufferPosition := 0 })
  else
    let r := eeprom_write st._eeprom st._position (bytesAt st._buffer 0 st._bufferPosition)
    some (r.1, { st with _eeprom := r.2, _position := st._position + st._bufferPosition,
                         _bufferPosition := 0 })

/-- The loop body of `write` with its store `_buffer[_bufferPosition] = data[i]` checked against
the array bound. -/
def writeByteChecked (st : uEspConfigLibFSEEPROM) (c : Char) (rest : List Char) :
    Option uEspConfigLibFSEEPROM :=
  if c = '\x00' then some st
  else if st._saveLineStart = true ∧
      (c = '#' ∨ c = ';' ∨ (c = '/' ∧ rest.head? = some '/')) then
    some { st with _saveInComment := true }
  else if st._saveInComment = false then
    match storeChecked st._buffer st._bufferPosition c with
    | none => none
    | some buffer =>
      if c = '\n' ∨ c = '\r' then
        some { st with _buffer := buffer, _bufferPosition := st._bufferPosition + 1,
                       _saveInComment := false, _saveLineStart := true }
      else
        some { st with _buffer := buffer, _bufferPosition := st._bufferPosition + 1,
                       _saveLineStart := false }
  else if c = '\n' ∨ c = '\r' then some { st with _saveInComment := false, _saveLineStart := true }
  else some st

/-- The loop of `write` over the checked loop body and the checked flush. -/
def writeLoopChecked : List Char → uEspConfigLibFSEEPROM →
    Option (Bool × uEspConfigLibFSEEPROM)
  | [], st => some (true, st)
  | c :: rest, st =>
    if st._bufferPosition ≥ uEspConfigLibFSEEPROM_BUFFER_SIZE then
      match _writeFlushChecked st with
      | none => none
      | some r =>
        if !r.1 then some (false, r.2)
        else
          match writeByteChecked r.2 c rest with
          | none => none
          | some st1 => writeLoopChecked rest st1
    else
      match writeByteChecked st c rest with
      | none => none
      | some st1 => writeLoopChecked rest st1

/-- The method `write` with every store into the staging buffer checked. -/
def writeChecked (st : uEspConfigLibFSEEPROM) (data : CStr) :
    Option (Bool × uEspConfigLibFSEEPROM) :=
  if st._status ≠ uEspConfigLibFS_STATUS_OPEN_WRITE then some (false, st)
  else writeLoopChecked data st

/-- The method `closeFile` over the checked flush. -/
def closeFileChecked (st : uEspConfigLibFSEEPROM) : Option (Bool × uEspConfigLibFSEEPROM) :=
  if st._status = uEspConfigLibFS_STATUS_OPEN_WRITE ∧ st._bufferPosition > 0 then
    _writeFlushChecked { st with _status := uEspConfigLibFS_STATUS_CLOSED }
  else if st._status = uEspConfigLibFS_STATUS_OPEN_READ ∨
      st._status = uEspConfigLibFS_STATUS_OPEN_WRITE then
    some (true, { st with _status := uEspConfigLibFS_STATUS_CLOSED })
  else some (false, st)

end uEspConfigLibFSEEPROM

/-- Stores reached from construction, on any medium and with any buffer content, by finitely
many calls of `openToRead`, `openToWrite`, `readLine`, `write` and `closeFile`. Construction is
by the three-argument constructor (`construct`: status CLOSED) or by the two-argument
constructor (`constructDefault`: `_status` and `_eeprom` unassigned, hence arbitrary). -/
inductive EepromReachable : uEspConfigLibFSEEPROM → Prop
  | construct (m : Medium) (buffer : Nat → Char) : EepromReachable (constructed m buffer)
  | constructDefault (status : Nat) (m : Medium) (buffer : Nat → Char) :
      EepromReachable (constructedDefault status m buffer)
  | openToRead (st : uEspConfigLibFSEEPROM) :
      EepromReachable st → EepromReachable (uEspConfigLibFSEEPROM.openToRead st).2
  | openToWrite (st : uEspConfigLibFSEEPROM) :
      EepromReachable st → EepromReachable (uEspConfigLibFSEEPROM.openToWrite st).2
  | readLine (st : uEspConfigLibFSEEPROM) (line : CStr) :
      EepromReachable st → EepromReachable (uEspConfigLibFSEEPROM.readLine st line).2.2
  | write (st : uEspConfigLibFSEEPROM) (data : CStr) :
      EepromReachable st → EepromReachable (uEspConfigLibFSEEPROM.write st data).2
  | closeFile (st : uEspConfigLibFSEEPROM) :
      EepromReachable st → EepromReachable (uEspConfigLibFSEEPROM.closeFile st).2

/-! ## Specification of the write filter and of line splitting -/

/-- Whether the last byte of a string is a `/` that begins a line: it follows a line terminator,
or it is the only byte and `atLineStart` says the string starts at a line start. -/
def endsInLineInitialSlash : Bool → List Char → Bool
  | _, [] => false
  | atLineStart, [c] => atLineStart && c == '/'
  | _, c :: rest => endsInLineInitialSlash (c == '\n' || c == '\r') rest

/-- The pieces of a text between its line feeds. -/
def splitAtLineFeed : CStr → List CStr
  | [] => [[]]
  | c :: rest =>
    if c = '\n' then [] :: splitAtLineFeed rest
    else
      match splitAtLineFeed rest with
      | [] => [[c]]
      | l :: ls => (c :: l) :: ls

/-- A registry of two options, both with flags 0. -/
def twoOptionRegistry : List uEspConfigLibList :=
  [ newSlot "ssid".toList "WiFi name".toList "home".toList 0,
    newSlot "port".toList "TCP port".toList "80".toList 0 ]

/-! ## Registry operations -/

theorem names_cons (s : uEspConfigLibList) (l : List uEspConfigLibList) :
    names (s :: l) = s.name :: names l := rfl

theorem names_append (l m : List uEspConfigLibList) : names (l ++ m) = names l ++ names m := by
  simp [names]

theorem addOptionLoop_absent (name d v : CStr) (list : List uEspConfigLibList)
    (h : name ∉ names list) : addOptionLoop name d v list = none := by
  induction list with
  | nil => rfl
  | cons s rest ih =>
    rw [names_cons, List.mem_cons, not_or] at h
    have hne : ¬ s.name = name := fun e => h.1 e.symm
    simp [addOptionLoop, hne, ih h.2]

theorem addOption_absent (list : List uEspConfigLibList) (name d v : CStr) (o : Nat)
    (h : name ∉ names list) : addOption list name d v o = list ++ [newSlot name d v o] := by
  cases list with
  | nil => rfl
  | cons s rest => simp only [addOption, addOptionLoop_absent name d v (s :: rest) h]

theorem defineAll_fresh (defs : List OptionDef) :
    ∀ list : List uEspConfigLibList,
      (defs.map (fun d => d.name)).Nodup →
      (∀ d ∈ defs, d.name ∉ names list) →
      defineAll list defs
        = list ++ defs.map (fun d => newSlot d.name d.description d.defaultValue d.option) := by
  induction defs with
  | nil => intro list _ _; simp [defineAll]
  | cons d rest ih =>
    intro list hnd hdis
    rw [List.map_cons, List.nodup_cons] at hnd
    have h0 : d.name ∉ names list := hdis d (List.mem_cons_self _ _)
    have hstep : defineAll list (d :: rest)
        = defineAll (addOption list d.name d.description d.defaultValue d.option) rest := rfl
    rw [hstep, addOption_absent list _ _ _ _ h0, ih _ hnd.2]
    · simp
    · intro e he
      rw [names_append]
      intro hmem
      rcases List.mem_append.1 hmem with h1 | h1
      · exact hdis e (List.mem_cons_of_mem _ he) h1
      · simp only [names, newSlot, List.map_cons, List.map_nil, List.mem_singleton] at h1
        exact hnd.1 (h1 ▸ List.mem_map_of_mem (fun d => d.name) he)

theorem getPointer_newSlots (defs : List OptionDef) (hnd : (defs.map (fun d => d.name)).Nodup)
    (d : OptionDef) (hmem : d ∈ defs) :
    getPointer (defs.map (fun d => newSlot d.name d.description d.defaultValue d.option)) d.name
      = some d.defaultValue := by
  induction defs with
  | nil => cases hmem
  | cons e rest ih =>
    rw [List.map_cons, List.nodup_cons] at hnd
    rcases List.mem_cons.1 hmem with h | h
    · subst h
      simp [getPointer, newSlot]
    · have hne : ¬ e.name = d.name := fun heq =>
        hnd.1 (heq ▸ List.mem_map_of_mem (fun d => d.name) h)
      simp [getPointer, newSlot, hne]
      simpa [newSlot] using ih hnd.2 h

/-- C1: after any sequence of `addOption` calls with pairwise distinct names on the empty
registry, `getPointer` of each defined name returns exactly the default given in its call. -/
theorem C1_getPointer_default_after_defines (defs : List OptionDef)
    (hnd : (defs.map (fun d => d.name)).Nodup) (d : OptionDef) (hmem : d ∈ defs) :
    getPointer (defineAll [] defs) d.name = some d.defaultValue := by
  rw [defineAll_fresh defs [] hnd (fun _ _ h => by cases h), List.nil_append]
  exact getPointer_newSlots defs hnd d hmem

theorem C1_getPointer_default_after_defines_witness :
    getPointer (defineAll [] [⟨"ssid".toList, "WiFi name".toList, "home".toList, 1⟩,
        ⟨"port".toList, "TCP port".toList, "80".toList, 0⟩]) "port".toList = some "80".toList :=
  C1_getPointer_default_after_defines
    [⟨"ssid".toList, "WiFi name".toList, "home".toList, 1⟩,
     ⟨"port".toList, "TCP port".toList, "80".toList, 0⟩]
    (by decide) ⟨"port".toList, "TCP port".toList, "80".toList, 0⟩ (by decide)

theorem addOptionLoop_present (name d v : CStr) (list : List uEspConfigLibList) :
    ∀ (i : Nat) (s : uEspConfigLibList), (names list).Nodup → list[i]? = some s → s.name = name →
      addOptionLoop name d v list
        = some (list.set i { s with description := d, defaultValue := v, value := v }) := by
  induction list with
  | nil => intro i s _ hi; simp at hi
  | cons h rest ih =>
    intro i s hu hi hn
    rw [names_cons, List.nodup_cons] at hu
    cases i with
    | zero =>
      simp only [List.getElem?_cons_zero, Option.some.injEq] at hi
      subst hi
      simp [addOptionLoop, hn]
    | succ k =>
      simp only [List.getElem?_cons_succ] at hi
      have hmem : s.name ∈ names rest :=
        List.mem_map_of_mem (fun s => s.name) (List.getElem?_mem hi)
      have hne : ¬ h.name = name := fun e => hu.1 (by rw [e, ← hn]; exact hmem)
      simp [addOptionLoop, hne, ih k s hu.2 hi hn]

theorem names_setHeadOption (o : Nat) (l : List uEspConfigLibList) :
    names (setHeadOption o l) = names l := by
  cases l <;> rfl

theorem length_setHeadOption (o : Nat) (l : List uEspConfigLibList) :
    (setHeadOption o l).length = l.length := by
  cases l <;> rfl

theorem getElem?_setHeadOption (o : Nat) (l : List uEspConfigLibList) (i : Nat) :
    (setHeadOption o l)[i]?
      = (l[i]?).map (fun s => if i = 0 then { s with option := o } else s) := by
  cases l with
  | nil => simp [setHeadOption]
  | cons h t =>
    cases i with
    | zero => simp [setHeadOption]
    | succ k => simp [setHeadOption]

theorem addOption_present (list : List uEspConfigLibList) (name d v : CStr) (o i : Nat)
    (s : uEspConfigLibList) (hu : (names list).Nodup) (hi : list[i]? = some s)
    (hn : s.name = name) :
    addOption list name d v o
      = setHeadOption o (list.set i { s with description := d, defaultValue := v, value := v }) := by
  cases list with
  | nil => simp at hi
  | cons h t => simp only [addOption, addOptionLoop_present name d v (h :: t) i s hu hi hn]

theorem names_set_same (list : List uEspConfigLibList) (i : Nat) (s t : uEspConfigLibList)
    (hi : list[i]? = some s) (hn : t.name = s.name) : names (list.set i t) = names list := by
  induction list generalizing i with
  | nil => simp
  | cons h rest ih =>
    cases i with
    | zero =>
      simp only [List.getElem?_cons_zero, Option.some.injEq] at hi
      subst hi
      simp [names, hn]
    | succ k =>
      simp only [List.getElem?_cons_succ] at hi
      simp only [List.set_cons_succ, names_cons, ih k hi]

/-- C2: redefining a name already present at position `i` keeps the number of entries and the
order of names, and the entry at position `i` then has the new description, the new default and
the new default as current value, whatever its value was. -/
theorem C2_addOption_redefine_in_place (list : List uEspConfigLibList) (name d v : CStr)
    (o i : Nat) (s : uEspConfigLibList) (hu : (names list).Nodup) (hi : list[i]? = some s)
    (hn : s.name = name) :
    (addOption list name d v o).length = list.length ∧
    names (addOption list name d v o) = names list ∧
    ∃ s1, (addOption list name d v o)[i]? = some s1 ∧ s1.name = name ∧
      s1.description = d ∧ s1.defaultValue = v ∧ s1.value = v := by
  rw [addOption_present list name d v o i s hu hi hn]
  refine ⟨by simp [length_setHeadOption], ?_, ?_⟩
  · rw [names_setHeadOption]
    exact names_set_same list i s _ hi rfl
  · have hlt : i < list.length := by
      rcases List.getElem?_eq_some_iff.1 hi with ⟨h, _⟩
      exact h
    rw [getElem?_setHeadOption, List.getElem?_set_self hlt]
    refine ⟨_, rfl, ?_⟩
    by_cases h0 : i = 0 <;> simp [h0, hn]

theorem C2_addOption_redefine_in_place_witness :
    (addOption [⟨"ssid".toList, "a".toList, "b".toList, "c".toList, 0⟩,
                ⟨"port".toList, "p".toList, "80".toList, "8080".toList, 0⟩]
        "port".toList "TCP port".toList "443".toList 1).length = 2 ∧
    names (addOption [⟨"ssid".toList, "a".toList, "b".toList, "c".toList, 0⟩,
                ⟨"port".toList, "p".toList, "80".toList, "8080".toList, 0⟩]
        "port".toList "TCP port".toList "443".toList 1) = ["ssid".toList, "port".toList] :=
  ⟨(C2_addOption_redefine_in_place _ "port".toList "TCP port".toList "443".toList 1 1
      ⟨"port".toList, "p".toList, "80".toList, "8080".toList, 0⟩ (by decide) (by decide)
      (by decide)).1,
   (C2_addOption_redefine_in_place _ "port".toList "TCP port".toList "443".toList 1 1
      ⟨"port".toList, "p".toList, "80".toList, "8080".toList, 0⟩ (by decide) (by decide)
      (by decide)).2.1⟩

theorem set_absent (list : List uEspConfigLibList) (name value : CStr)
    (h : name ∉ names list) : set list name value = (false, list) := by
  induction list with
  | nil => rfl
  | cons s rest ih =>
    rw [names_cons, List.mem_cons, not_or] at h
    have hne : ¬ s.name = name := fun e => h.1 e.symm
    simp [set, hne, ih h.2]

theorem set_present (list : List uEspConfigLibList) (name value : CStr)
    (h : name ∈ names list) : (set list name value).1 = true := by
  induction list with
  | nil => simp [names] at h
  | cons s rest ih =>
    by_cases hs : s.name = name
    · simp [set, hs]
    · rw [names_cons, List.mem_cons] at h
      rcases h with h | h
      · exact absurd h.symm hs
      · simp [set, hs, ih h]

theorem names_set (list : List uEspConfigLibList) (name value : CStr) :
    names (set list name value).2 = names list := by
  induction list with
  | nil => rfl
  | cons s rest ih =>
    by_cases hs : s.name = name
    · simp [set, hs, names]
    · simp only [set, hs, if_false, names_cons, ih]

theorem set_frame (list : List uEspConfigLibList) (name value : CStr) :
    (set list name value).2.map (fun s => s.description) = list.map (fun s => s.description) ∧
    (set list name value).2.map (fun s => s.defaultValue) = list.map (fun s => s.defaultValue) ∧
    (set list name value).2.map (fun s => s.option) = list.map (fun s => s.option) := by
  induction list with
  | nil => simp [set]
  | cons s rest ih =>
    by_cases hs : s.name = name
    · simp [set, hs]
    · simp [set, hs, ih.1, ih.2.1, ih.2.2]

theorem set_others (list : List uEspConfigLibList) (name value : CStr) :
    ∀ (j : Nat) (s : uEspConfigLibList), list[j]? = some s → s.name ≠ name →
      (set list name value).2[j]? = some s := by
  induction list with
  | nil => intro j s hj; simp at hj
  | cons h rest ih =>
    intro j s hj hne
    by_cases hs : h.name = name
    · cases j with
      | zero =>
        simp only [List.getElem?_cons_zero, Option.some.injEq] at hj
        exact absurd (hj ▸ hs) hne
      | succ k => simpa [set, hs] using hj
    · cases j with
      | zero => simpa [set, hs] using hj
      | succ k =>
        simp only [List.getElem?_cons_succ] at hj
        simpa [set, hs] using ih k s hj hne

theorem getPointer_set_same (list : List uEspConfigLibList) (name value : CStr)
    (h : name ∈ names list) : getPointer (set list name value).2 name = some value := by
  induction list with
  | nil => simp [names] at h
  | cons s rest ih =>
    by_cases hs : s.name = name
    · simp [set, hs, getPointer]
    · rw [names_cons, List.mem_cons] at h
      rcases h with h | h
      · exact absurd h.symm hs
      · simp [set, hs, getPointer, ih h]

theorem getPointer_set_other (list : List uEspConfigLibList) (name value other : CStr)
    (h : other ≠ name) : getPointer (set list name value).2 other = getPointer list other := by
  induction list with
  | nil => rfl
  | cons s rest ih =>
    by_cases hs : s.name = name
    · have hso : ¬ name = other := fun e => h e.symm
      simp [set, hs, getPointer, hso]
    · simp [set, hs, getPointer, ih]

theorem getPointer_absent (list : List uEspConfigLibList) (name : CStr)
    (h : name ∉ names list) : getPointer list name = none := by
  induction list with
  | nil => rfl
  | cons s rest ih =>
    rw [names_cons, List.mem_cons, not_or] at h
    have hne : ¬ s.name = name := fun e => h.1 e.symm
    simp [getPointer, hne, ih h.2]

/-- C3: `set` on a name that matches no entry returns false and leaves the registry, the empty
one included, exactly as it was. -/
theorem C3_set_undefined_name (list : List uEspConfigLibList) (name value : CStr)
    (h : name ∉ names list) : set list name value = (false, list) :=
  set_absent list name value h

theorem C3_set_undefined_name_witness :
    set [⟨"ssid".toList, "a".toList, "b".toList, "c".toList, 0⟩] "port".toList "80".toList
      = (false, [⟨"ssid".toList, "a".toList, "b".toList, "c".toList, 0⟩]) ∧
    set [] "port".toList "80".toList = (false, []) :=
  ⟨C3_set_undefined_name _ "port".toList "80".toList (by decide),
   C3_set_undefined_name [] "port".toList "80".toList (by decide)⟩

/-- C4: `set` on a present name returns true, `getPointer` of that name then returns the new
value, names, descriptions, defaults, flags and order are unchanged, every entry with another
name is unchanged and so is the value `getPointer` reports for every other name; `getPointer` of
a name matching no entry returns null. -/
theorem C4_set_then_getPointer (list : List uEspConfigLibList) (name v : CStr)
    (h : name ∈ names list) :
    (set list name v).1 = true ∧
    getPointer (set list name v).2 name = some v ∧
    names (set list name v).2 = names list ∧
    (set list name v).2.map (fun s => s.description) = list.map (fun s => s.description) ∧
    (set list name v).2.map (fun s => s.defaultValue) = list.map (fun s => s.defaultValue) ∧
    (set list name v).2.map (fun s => s.option) = list.map (fun s => s.option) ∧
    (∀ (j : Nat) (s : uEspConfigLibList), list[j]? = some s → s.name ≠ name →
      (set list name v).2[j]? = some s) ∧
    (∀ other : CStr, other ≠ name →
      getPointer (set list name v).2 other = getPointer list other) ∧
    (∀ other : CStr, other ∉ names list → getPointer list other = none) :=
  ⟨set_present list name v h, getPointer_set_same list name v h, names_set list name v,
   (set_frame list name v).1, (set_frame list name v).2.1, (set_frame list name v).2.2,
   set_others list name v, fun other ho => getPointer_set_other list name v other ho,
   fun other ho => getPointer_absent list other ho⟩

theorem C4_set_then_getPointer_witness :
    getPointer (set [⟨"ssid".toList, "a".toList, "b".toList, "c".toList, 0⟩,
        ⟨"port".toList, "p".toList, "80".toList, "80".toList, 0⟩] "port".toList
        "8080".toList).2 "port".toList = some "8080".toList :=
  (C4_set_then_getPointer _ "port".toList "8080".toList (by decide)).2.1

theorem clear_absent (list : List uEspConfigLibList) (name : CStr)
    (h : name ∉ names list) : clear list name = (false, list) := by
  induction list with
  | nil => rfl
  | cons s rest ih =>
    rw [names_cons, List.mem_cons, not_or] at h
    have hne : ¬ s.name = name := fun e => h.1 e.symm
    simp [clear, hne, ih h.2]

theorem clear_eq_set (list : List uEspConfigLibList) (name : CStr) (s : uEspConfigLibList)
    (h : list.find? (fun t => decide (t.name = name)) = some s) :
    clear list name = set list name s.defaultValue := by
  induction list with
  | nil => simp at h
  | cons t rest ih =>
    by_cases ht : t.name = name
    · simp only [List.find?, ht, decide_True, Option.some.injEq] at h
      subst h
      simp [clear, set, ht]
    · simp only [List.find?, ht, decide_False] at h
      simp [clear, set, ht, ih h]

theorem find?_name_mem (list : List uEspConfigLibList) (name : CStr) (s : uEspConfigLibList)
    (h : list.find? (fun t => decide (t.name = name)) = some s) : name ∈ names list := by
  have h1 := List.find?_some h
  have h2 := List.mem_of_find?_eq_some h
  simp only [decide_eq_true_eq] at h1
  exact h1 ▸ List.mem_map_of_mem (fun s => s.name) h2

theorem names_clear (list : List uEspConfigLibList) (name : CStr) :
    names (clear list name).2 = names list := by
  induction list with
  | nil => rfl
  | cons s rest ih =>
    by_cases hs : s.name = name
    · simp [clear, hs, names]
    · simp only [clear, hs, if_false, names_cons, ih]

theorem clear_set (list : List uEspConfigLibList) (name v : CStr) :
    clear (set list name v).2 name = clear list name := by
  induction list with
  | nil => rfl
  | cons s rest ih =>
    by_cases hs : s.name = name
    · simp [clear, set, hs]
    · simp [clear, set, hs, ih]

/-- C5: when the name is present, with `s` its first entry, `clear` returns true, `getPointer`
of the name then returns the default of `s`, and names, descriptions, defaults, flags, order and
every entry with another name are unchanged; when the name is absent `clear` returns false and
the registry is unchanged; `set` followed by `clear` of the same name gives the registry that
`clear` alone gives. -/
theorem C5_clear_resets_to_default (list : List uEspConfigLibList) (name : CStr) :
    (∀ s : uEspConfigLibList, list.find? (fun t => decide (t.name = name)) = some s →
      (clear list name).1 = true ∧
      getPointer (clear list name).2 name = some s.defaultValue ∧
      names (clear list name).2 = names list ∧
      (clear list name).2.map (fun t => t.description) = list.map (fun t => t.description) ∧
      (clear list name).2.map (fun t => t.defaultValue) = list.map (fun t => t.defaultValue) ∧
      (clear list name).2.map (fun t => t.option) = list.map (fun t => t.option) ∧
      (∀ (j : Nat) (t : uEspConfigLibList), list[j]? = some t → t.name ≠ name →
        (clear list name).2[j]? = some t)) ∧
    (name ∉ names list → clear list name = (false, list)) ∧
    (∀ v : CStr, (clear (set list name v).2 name).2 = (clear list name).2) := by
  refine ⟨?_, clear_absent list name, fun v => by rw [clear_set]⟩
  intro s hs
  have hmem := find?_name_mem list name s hs
  rw [clear_eq_set list name s hs]
  exact ⟨set_present list name _ hmem, getPointer_set_same list name _ hmem,
    names_set list name _, (set_frame list name _).1, (set_frame list name _).2.1,
    (set_frame list name _).2.2, set_others list name _⟩

theorem C5_clear_resets_to_default_witness :
    getPointer (clear [⟨"ssid".toList, "a".toList, "b".toList, "c".toList, 0⟩,
        ⟨"port".toList, "p".toList, "80".toList, "8080".toList, 0⟩] "port".toList).2
        "port".toList = some "80".toList ∧
    clear [⟨"ssid".toList, "a".toList, "b".toList, "c".toList, 0⟩] "port".toList
      = (false, [⟨"ssid".toList, "a".toList, "b".toList, "c".toList, 0⟩]) :=
  ⟨((C5_clear_resets_to_default _ "port".toList).1
      ⟨"port".toList, "p".toList, "80".toList, "8080".toList, 0⟩ (by decide)).2.1,
   (C5_clear_resets_to_default _ "port".toList).2.1 (by decide)⟩

/-! ## Name uniqueness -/

theorem names_addOptionLoop (name d v : CStr) (list : List uEspConfigLibList) :
    ∀ updated, addOptionLoop name d v list = some updated → names updated = names list := by
  induction list with
  | nil => intro u h; simp [addOptionLoop] at h
  | cons s rest ih =>
    intro u h
    by_cases hs : s.name = name
    · simp only [addOptionLoop, hs, if_true, Option.some.injEq] at h
      subst h
      simp [names]
      exact hs.symm
    · simp only [addOptionLoop, hs, if_false, Option.map_eq_some'] at h
      rcases h with ⟨r, hr, rfl⟩
      simp only [names_cons, ih r hr]

theorem addOptionLoop_none (name d v : CStr) (list : List uEspConfigLibList)
    (h : addOptionLoop name d v list = none) : name ∉ names list := by
  induction list with
  | nil => simp [names]
  | cons s rest ih =>
    by_cases hs : s.name = name
    · simp [addOptionLoop, hs] at h
    · simp only [addOptionLoop, hs, if_false, Option.map_eq_none'] at h
      rw [names_cons, List.mem_cons, not_or]
      exact ⟨fun e => hs e.symm, ih h⟩

theorem nodup_addOption (list : List uEspConfigLibList) (name d v : CStr) (o : Nat)
    (h : (names list).Nodup) : (names (addOption list name d v o)).Nodup := by
  cases hl : addOptionLoop name d v list with
  | none =>
    have habs := addOptionLoop_none name d v list hl
    rw [addOption_absent list name d v o habs, names_append]
    have h1 : (names list).Nodup := h
    simp only [names] at h1 habs
    simpa [names, newSlot, List.nodup_append, h1] using habs
  | some u =>
    cases list with
    | nil => simp [addOptionLoop] at hl
    | cons s rest =>
      simp only [addOption, hl, names_setHeadOption, names_addOptionLoop name d v _ u hl]
      exact h

theorem names_parseConfigLine (list : List uEspConfigLibList) (line : CStr) :
    names (_parseConfigLine list line) = names list := by
  unfold _parseConfigLine
  simp only
  split
  · rfl
  · split
    · rfl
    · exact names_set _ _ _

theorem names_loadLoop {σ : Type} (fs : FSInterface σ) :
    ∀ (fuel : Nat) (st : σ) (line : CStr) (list : List uEspConfigLibList) (st1 : σ)
      (list1 : List uEspConfigLibList),
      loadLoop fs fuel st line list = some (st1, list1) → names list1 = names list := by
  intro fuel
  induction fuel with
  | zero => intro st line list st1 list1 h; simp [loadLoop] at h
  | succ n ih =>
    intro st line list st1 list1 h
    simp only [loadLoop] at h
    split at h
    · rw [ih _ _ _ _ _ h, names_parseConfigLine]
    · simp only [Option.some.injEq, Prod.mk.injEq] at h
      rw [h.2]

theorem names_loadConfigFile {σ : Type} (fs : FSInterface σ) (fuel : Nat) (st st1 : σ)
    (result : Bool) (list list1 : List uEspConfigLibList)
    (h : loadConfigFile fs fuel st list = some (result, st1, list1)) :
    names list1 = names list := by
  unfold loadConfigFile at h
  simp only at h
  split at h
  · simp only [Option.some.injEq, Prod.mk.injEq] at h
    rw [h.2.2]
  · split at h
    · cases h
    · rename_i st2 list2 hl
      simp only [Option.some.injEq, Prod.mk.injEq] at h
      rw [← h.2.2]
      exact names_loadLoop fs fuel _ _ _ _ _ hl

/-- C6: every registry reached from the empty one by finitely many `addOption`, `set`, `clear`,
`_parseConfigLine` and `loadConfigFile` operations has pairwise distinct names, equality being
exact equality of the character sequences. -/
theorem C6_names_unique (list : List uEspConfigLibList) (h : Reachable list) :
    (names list).Nodup := by
  induction h with
  | empty => simp [names]
  | addOption l n d v o _ ih => exact nodup_addOption l n d v o ih
  | set l n v _ ih => rw [names_set]; exact ih
  | clear l n _ ih => rw [names_clear]; exact ih
  | parseConfigLine l line _ ih => rw [names_parseConfigLine]; exact ih
  | loadConfigFile fs fuel st st1 r l l1 _ hload ih =>
    rw [names_loadConfigFile fs fuel st st1 r l l1 hload]; exact ih

theorem C6_names_unique_witness :
    (names (addOption (set (addOption (addOption [] "ssid".toList "a".toList "b".toList 0)
      "Ssid".toList "c".toList "d".toList 0) "ssid".toList "x".toList).2
      "ssid".toList "e".toList "f".toList 1)).Nodup :=
  C6_names_unique _
    (Reachable.addOption _ _ _ _ _ (Reachable.set _ _ _
      (Reachable.addOption _ _ _ _ _ (Reachable.addOption _ _ _ _ _ Reachable.empty))))

/-! ## Arduino `String` primitives -/

theorem isspace_eq_false_of_eq {c : Char} (h : c = '=') : isspace c = false := by
  subst h; decide

theorem trim_of_all_space (s : CStr) (h : ∀ c ∈ s, isspace c = true) : trim s = [] := by
  have h1 : s.dropWhile isspace = [] := List.dropWhile_eq_nil_iff.2 h
  simp [trim, h1]

theorem trim_pad (p s q : CStr) (hp : ∀ c ∈ p, isspace c = true) (hq : ∀ c ∈ q, isspace c = true)
    (hs : noOuterSpace s = true) : trim (p ++ s ++ q) = s := by
  cases s with
  | nil =>
    apply trim_of_all_space
    intro c hc
    simp only [List.append_nil, List.mem_append] at hc
    rcases hc with hc | hc
    · exact hp c hc
    · exact hq c hc
  | cons a rest =>
    have ha : isspace a = false := by
      simp only [noOuterSpace, List.head?_cons, Bool.and_eq_true, Bool.not_eq_true'] at hs
      exact hs.1
    have h1 : (p ++ (a :: rest) ++ q).dropWhile isspace = a :: rest ++ q := by
      rw [List.append_assoc, List.dropWhile_append_of_pos hp]
      simp [List.dropWhile_cons, ha]
    rcases List.eq_nil_or_concat (a :: rest) with hnil | ⟨init, b, hb⟩
    · cases hnil
    · rw [List.concat_eq_append] at hb
      have hbs : isspace b = false := by
        rw [hb] at hs
        simp only [noOuterSpace, List.getLast?_concat, Bool.and_eq_true,
          Bool.not_eq_true'] at hs
        exact hs.2
      have hq2 : ∀ c ∈ q.reverse, isspace c = true := fun c hc => hq c (List.mem_reverse.1 hc)
      unfold trim
      rw [h1, hb, List.reverse_append, List.dropWhile_append_of_pos hq2, List.reverse_append,
        List.reverse_singleton, List.singleton_append, List.dropWhile_cons_of_neg (by simp [hbs])]
      simp

theorem noOuterSpace_head {a : Char} {rest : CStr} (h : noOuterSpace (a :: rest) = true) :
    isspace a = false := by
  simp only [noOuterSpace, List.head?_cons, Bool.and_eq_true, Bool.not_eq_true'] at h
  exact h.1

theorem noOuterSpace_last {init : CStr} {b : Char} (h : noOuterSpace (init ++ [b]) = true) :
    isspace b = false := by
  simp only [noOuterSpace, List.getLast?_concat, Bool.and_eq_true, Bool.not_eq_true'] at h
  exact h.2

theorem noOuterSpace_intro (a b : Char) (mid : CStr) (ha : isspace a = false)
    (hb : isspace b = false) : noOuterSpace (a :: (mid ++ [b])) = true := by
  have h : (a :: (mid ++ [b])).getLast? = some b := by
    rw [← List.cons_append, List.getLast?_concat]
  simp [noOuterSpace, h, ha, hb]

theorem isComment_append (n r : CStr) (hn : n ≠ []) (hc : isComment n = false)
    (hr : ∀ c rest, r = c :: rest → c ≠ '/') : isComment (n ++ r) = false := by
  cases n with
  | nil => exact absurd rfl hn
  | cons a t =>
    cases t with
    | nil =>
      cases r with
      | nil => simpa using hc
      | cons c rest =>
        have hcs := hr c rest rfl
        simp only [isComment, startsWith, String.toList, Bool.and_true, Bool.or_eq_false_iff,
          Bool.and_false] at hc
        simp [isComment, startsWith, String.toList, hc.1.1, hc.1.2, hcs]
    | cons b t2 =>
      simpa [isComment, startsWith, String.toList] using hc

theorem indexOf_append (a b : CStr) (ch : Char) (h : ch ∉ a) :
    indexOf (a ++ ch :: b) ch = (a.length : Int) := by
  induction a with
  | nil => simp [indexOf]
  | cons c t ih =>
    rw [List.mem_cons, not_or] at h
    have hne : ¬ c = ch := fun e => h.1 e.symm
    have hnn : ¬ ((t.length : Int) < 0) := by omega
    have ih2 := ih h.2
    rw [List.cons_append]
    unfold indexOf
    rw [if_neg hne, ih2, if_neg hnn, List.length_cons]
    push_cast
    rfl

theorem indexOf_absent (s : CStr) (ch : Char) (h : ch ∉ s) : indexOf s ch = -1 := by
  induction s with
  | nil => rfl
  | cons c t ih =>
    rw [List.mem_cons, not_or] at h
    have hne : ¬ c = ch := fun e => h.1 e.symm
    simp [indexOf, hne, ih h.2]

theorem parseConfigLine_unfold (list : List uEspConfigLibList) (line : CStr) :
    _parseConfigLine list line
      = if isComment (trim line) = true then list
        else if indexOf (trim line) '=' < 2 then list
        else (set list (trim (substring (trim line) 0 (indexOf (trim line) '=' - 1).toNat))
                (trim (substringFrom (trim line) (indexOf (trim line) '=' + 1).toNat))).2 := rfl

theorem trim_assignment_line (n v p1 p2 p3 p4 : CStr) (hn : n ≠ [])
    (hno : noOuterSpace n = true) (hv : noOuterSpace v = true)
    (h1 : ∀ c ∈ p1, isspace c = true) (h3 : ∀ c ∈ p3, isspace c = true)
    (h4 : ∀ c ∈ p4, isspace c = true) :
    ∃ w, trim (p1 ++ n ++ p2 ++ '=' :: (p3 ++ v ++ p4)) = n ++ p2 ++ '=' :: w ∧ trim w = v := by
  cases n with
  | nil => exact absurd rfl hn
  | cons a nt =>
    have ha := noOuterSpace_head hno
    rcases List.eq_nil_or_concat v with hv0 | ⟨init, b, hvb⟩
    · subst hv0
      refine ⟨[], ?_, by simp [trim]⟩
      have hline : p1 ++ a :: nt ++ p2 ++ '=' :: (p3 ++ [] ++ p4)
          = p1 ++ (a :: (nt ++ p2 ++ ['='])) ++ (p3 ++ p4) := by simp
      have h34 : ∀ c ∈ p3 ++ p4, isspace c = true := by
        intro c hc
        rcases List.mem_append.1 hc with h | h
        · exact h3 c h
        · exact h4 c h
      rw [hline, trim_pad p1 _ (p3 ++ p4) h1 h34 (noOuterSpace_intro a '=' _ ha (by decide))]
      simp
    · rw [List.concat_eq_append] at hvb
      subst hvb
      have hb := noOuterSpace_last hv
      refine ⟨p3 ++ (init ++ [b]), ?_, ?_⟩
      · have hline : p1 ++ a :: nt ++ p2 ++ '=' :: (p3 ++ (init ++ [b]) ++ p4)
            = p1 ++ (a :: ((nt ++ p2 ++ '=' :: (p3 ++ init)) ++ [b])) ++ p4 := by simp
        rw [hline, trim_pad p1 _ p4 h1 h4 (noOuterSpace_intro a b _ ha hb)]
        simp
      · have := trim_pad p3 (init ++ [b]) [] h3 (by simp) hv
        simpa using this

theorem substring_zero (s : CStr) (k : Nat) : substring s 0 k = s.take k := by
  simp [substring]

theorem substringFrom_eq_drop (s : CStr) (k : Nat) (h : k ≤ s.length) :
    substringFrom s k = s.drop k := by
  have h1 : ¬ k > s.length := by omega
  simp only [substringFrom, substring, h1, if_false]
  apply List.take_of_length_le
  simp

theorem parseConfigLine_assignment (list : List uEspConfigLibList) (n v p1 p2 p3 p4 : CStr)
    (hn : n ≠ []) (hno : noOuterSpace n = true) (heq : '=' ∉ n) (hc : isComment n = false)
    (hv : noOuterSpace v = true)
    (h1 : ∀ c ∈ p1, isspace c = true) (h2 : ∀ c ∈ p2, isspace c = true) (hp2 : p2 ≠ [])
    (h3 : ∀ c ∈ p3, isspace c = true) (h4 : ∀ c ∈ p4, isspace c = true) :
    _parseConfigLine list (p1 ++ n ++ p2 ++ '=' :: (p3 ++ v ++ p4)) = (set list n v).2 := by
  rcases trim_assignment_line n v p1 p2 p3 p4 hn hno hv h1 h3 h4 with ⟨w, ht, hw⟩
  rcases List.eq_nil_or_concat p2 with hp0 | ⟨q, z, hq⟩
  · exact absurd hp0 hp2
  rw [List.concat_eq_append] at hq
  subst hq
  have hqs : ∀ c ∈ q, isspace c = true := fun c hc => h2 c (List.mem_append_left _ hc)
  have hcom : isComment (n ++ (q ++ [z]) ++ '=' :: w) = false := by
    rw [List.append_assoc]
    apply isComment_append n _ hn hc
    intro c rest hr hslash
    have hmem : c ∈ q ++ [z] := by
      cases q with
      | nil =>
        simp only [List.nil_append, List.singleton_append, List.cons.injEq] at hr
        simp [hr.1]
      | cons q0 qt =>
        simp only [List.cons_append, List.cons.injEq] at hr
        simp [hr.1]
    have := h2 c hmem
    rw [hslash] at this
    exact absurd this (by decide)
  have hnotin : '=' ∉ n ++ (q ++ [z]) := by
    intro hmem
    rcases List.mem_append.1 hmem with h | h
    · exact heq h
    · have := h2 _ h
      exact absurd this (by decide)
  have hidx : indexOf (n ++ (q ++ [z]) ++ '=' :: w) '=' = ((n ++ (q ++ [z])).length : Int) :=
    indexOf_append _ w '=' hnotin
  have hlen : (n ++ (q ++ [z])).length = n.length + q.length + 1 := by
    simp [Nat.add_assoc]
  have hnpos : 0 < n.length := List.length_pos.2 hn
  rw [parseConfigLine_unfold, ht, hcom, hidx, hlen]
  have hge : ¬ (((n.length + q.length + 1 : Nat) : Int) < 2) := by omega
  have e1 : (((n.length + q.length + 1 : Nat) : Int) - 1).toNat = n.length + q.length := by omega
  have e2 : (((n.length + q.length + 1 : Nat) : Int) + 1).toNat = n.length + q.length + 2 := by
    omega
  simp only [Bool.false_eq_true, if_false, hge, e1, e2]
  have hvar : trim (substring (n ++ (q ++ [z]) ++ '=' :: w) 0 (n.length + q.length)) = n := by
    rw [substring_zero]
    have : n ++ (q ++ [z]) ++ '=' :: w = (n ++ q) ++ (z :: '=' :: w) := by simp
    rw [this, List.take_left' (by simp)]
    have := trim_pad [] n q (by simp) hqs hno
    simpa using this
  have hval : trim (substringFrom (n ++ (q ++ [z]) ++ '=' :: w) (n.length + q.length + 2)) = v := by
    rw [substringFrom_eq_drop _ _ (by simp; omega)]
    have : n ++ (q ++ [z]) ++ '=' :: w = (n ++ q ++ [z, '=']) ++ w := by simp
    rw [this, List.drop_left' (by simp; omega)]
    exact hw
  rw [hvar, hval]

/-! ## Line codec -/

/-- C7: the name `_parseConfigLine` looks up is the trimmed text before the first `=` without
its last character (`substring(0, pos - 1)`). On `host=1.2.3.4` the name is `hos`: a registry
defining `host` is left unchanged and a registry defining `hos` has that option set, while
`host = 1.2.3.4` sets `host`; a value containing further `=` is kept whole. -/
theorem C7_parse_drops_char_before_equals :
    _parseConfigLine [newSlot "host".toList "d".toList "0.0.0.0".toList 0] "host=1.2.3.4".toList
      = [newSlot "host".toList "d".toList "0.0.0.0".toList 0] ∧
    getPointer (_parseConfigLine [newSlot "hos".toList [] [] 0, newSlot "host".toList [] [] 0]
      "host=1.2.3.4".toList) "hos".toList = some "1.2.3.4".toList ∧
    getPointer (_parseConfigLine [newSlot "host".toList "d".toList "0.0.0.0".toList 0]
      "host = 1.2.3.4".toList) "host".toList = some "1.2.3.4".toList ∧
    getPointer (_parseConfigLine [newSlot "host".toList "d".toList "0.0.0.0".toList 0]
      "host = a=b=c".toList) "host".toList = some "a=b=c".toList := by
  decide

/-- C8: for a defined name `n` (non-empty, no outer whitespace, no `=`, no comment marker at its
start), a value `v` without outer whitespace and whitespace paddings `p1 .. p4` with `p2`
non-empty, `_parseConfigLine` on `p1 ++ n ++ p2 ++ "=" ++ p3 ++ v ++ p4` performs exactly
`set(n, v)`: afterwards `getPointer n` is `v`, and names, descriptions, defaults, flags, order
and every entry with another name are unchanged. -/
theorem C8_parse_padded_assignment (list : List uEspConfigLibList) (n v p1 p2 p3 p4 : CStr)
    (hdef : n ∈ names list) (hn : n ≠ []) (hno : noOuterSpace n = true) (heq : '=' ∉ n)
    (hc : isComment n = false) (hv : noOuterSpace v = true)
    (h1 : ∀ c ∈ p1, isspace c = true) (h2 : ∀ c ∈ p2, isspace c = true) (hp2 : p2 ≠ [])
    (h3 : ∀ c ∈ p3, isspace c = true) (h4 : ∀ c ∈ p4, isspace c = true) :
    _parseConfigLine list (p1 ++ n ++ p2 ++ ['='] ++ p3 ++ v ++ p4) = (set list n v).2 ∧
    getPointer (_parseConfigLine list (p1 ++ n ++ p2 ++ ['='] ++ p3 ++ v ++ p4)) n = some v ∧
    names (_parseConfigLine list (p1 ++ n ++ p2 ++ ['='] ++ p3 ++ v ++ p4)) = names list ∧
    (_parseConfigLine list (p1 ++ n ++ p2 ++ ['='] ++ p3 ++ v ++ p4)).map
      (fun s => s.description) = list.map (fun s => s.description) ∧
    (_parseConfigLine list (p1 ++ n ++ p2 ++ ['='] ++ p3 ++ v ++ p4)).map
      (fun s => s.defaultValue) = list.map (fun s => s.defaultValue) ∧
    (_parseConfigLine list (p1 ++ n ++ p2 ++ ['='] ++ p3 ++ v ++ p4)).map
      (fun s => s.option) = list.map (fun s => s.option) ∧
    (∀ (j : Nat) (s : uEspConfigLibList), list[j]? = some s → s.name ≠ n →
      (_parseConfigLine list (p1 ++ n ++ p2 ++ ['='] ++ p3 ++ v ++ p4))[j]? = some s) := by
  have hline : p1 ++ n ++ p2 ++ ['='] ++ p3 ++ v ++ p4
      = p1 ++ n ++ p2 ++ '=' :: (p3 ++ v ++ p4) := by simp
  rw [hline, parseConfigLine_assignment list n v p1 p2 p3 p4 hn hno heq hc hv h1 h2 hp2 h3 h4]
  exact ⟨rfl, getPointer_set_same list n v hdef, names_set list n v, (set_frame list n v).1,
    (set_frame list n v).2.1, (set_frame list n v).2.2, set_others list n v⟩

theorem C8_parse_padded_assignment_witness :
    _parseConfigLine [newSlot "host".toList "d".toList "0.0.0.0".toList 0]
        "  host = 1.2.3.4  ".toList
      = (set [newSlot "host".toList "d".toList "0.0.0.0".toList 0] "host".toList
          "1.2.3.4".toList).2 ∧
    getPointer (_parseConfigLine [newSlot "host".toList "d".toList "0.0.0.0".toList 0]
        "  host = 1.2.3.4  ".toList) "host".toList = some "1.2.3.4".toList :=
  ⟨(C8_parse_padded_assignment [newSlot "host".toList "d".toList "0.0.0.0".toList 0]
      "host".toList "1.2.3.4".toList "  ".toList " ".toList " ".toList "  ".toList
      (by decide) (by decide) (by decide) (by decide) (by decide) (by decide) (by decide)
      (by decide) (by decide) (by decide) (by decide)).1,
   (C8_parse_padded_assignment [newSlot "host".toList "d".toList "0.0.0.0".toList 0]
      "host".toList "1.2.3.4".toList "  ".toList " ".toList " ".toList "  ".toList
      (by decide) (by decide) (by decide) (by decide) (by decide) (by decide) (by decide)
      (by decide) (by decide) (by decide) (by decide)).2.1⟩

/-- C9: a line whose trimmed form starts with `;`, `#` or `//`, or contains no `=`, or has its
first `=` at index 0 or 1, leaves the registry unchanged. -/
theorem C9_parse_ignored_lines (list : List uEspConfigLibList) (line : CStr)
    (h : isComment (trim line) = true ∨ '=' ∉ trim line ∨
      indexOf (trim line) '=' = 0 ∨ indexOf (trim line) '=' = 1) :
    _parseConfigLine list line = list := by
  rw [parseConfigLine_unfold]
  by_cases hc : isComment (trim line) = true
  · simp [hc]
  · have hlt : indexOf (trim line) '=' < 2 := by
      rcases h with h | h | h | h
      · exact absurd h hc
      · rw [indexOf_absent _ _ h]; decide
      · rw [h]; decide
      · rw [h]; decide
    simp [hc, hlt]

theorem C9_parse_ignored_lines_witness :
    _parseConfigLine [newSlot "foo".toList [] [] 0] "# foo=bar".toList
      = [newSlot "foo".toList [] [] 0] ∧
    _parseConfigLine [newSlot "a".toList [] [] 0] "; a=b".toList
      = [newSlot "a".toList [] [] 0] ∧
    _parseConfigLine [newSlot "x".toList [] [] 0] "// x=y".toList
      = [newSlot "x".toList [] [] 0] ∧
    _parseConfigLine [newSlot "a".toList [] [] 0] "a=b".toList
      = [newSlot "a".toList [] [] 0] ∧
    _parseConfigLine [newSlot "a".toList [] [] 0] "no assignment here".toList
      = [newSlot "a".toList [] [] 0] :=
  ⟨C9_parse_ignored_lines _ "# foo=bar".toList (Or.inl (by decide)),
   C9_parse_ignored_lines _ "; a=b".toList (Or.inl (by decide)),
   C9_parse_ignored_lines _ "// x=y".toList (Or.inl (by decide)),
   C9_parse_ignored_lines _ "a=b".toList (Or.inr (Or.inr (Or.inr (by decide)))),
   C9_parse_ignored_lines _ "no assignment here".toList (Or.inr (Or.inl (by decide)))⟩

/-! ## Save and load over the line-faithful backend -/

theorem writeAll_lineStore (pieces : List CStr) :
    ∀ st : LineStore, writeAll lineStoreFS st pieces
      = { file := st.file ++ pieces.flatten, unread := st.unread } := by
  induction pieces with
  | nil => intro st; simp [writeAll]
  | cons d rest ih =>
    intro st
    have hstep : writeAll lineStoreFS st (d :: rest)
        = writeAll lineStoreFS (lineStoreFS.write st d).2 rest := rfl
    rw [hstep, ih]
    simp [lineStoreFS]

theorem withLineFeeds_append (a b : List CStr) :
    withLineFeeds (a ++ b) = withLineFeeds a ++ withLineFeeds b := by
  simp [withLineFeeds]

theorem withLineFeeds_cons (l : CStr) (ls : List CStr) :
    withLineFeeds (l :: ls) = l ++ '\n' :: withLineFeeds ls := by
  simp [withLineFeeds]

theorem slotWrites_flatten (slot : uEspConfigLibList) :
    (slotWrites slot).flatten = withLineFeeds (slotLines slot) := by
  simp [slotWrites, slotLines, withLineFeeds, String.toList]

theorem bannerWrites_flatten : bannerWrites.flatten = withLineFeeds bannerLines := rfl

theorem writeSlots_lineStore (list : List uEspConfigLibList) :
    ∀ st : LineStore,
      list.foldl (fun s slot => writeAll lineStoreFS s (slotWrites slot)) st
        = { file := st.file ++ withLineFeeds (list.map slotLines).flatten,
            unread := st.unread } := by
  induction list with
  | nil => intro st; simp [withLineFeeds]
  | cons slot rest ih =>
    intro st
    rw [List.foldl_cons, ih, writeAll_lineStore, slotWrites_flatten]
    simp [withLineFeeds_append, List.append_assoc]

theorem saveConfigFile_lineStore (st : LineStore) (list : List uEspConfigLibList) :
    saveConfigFile lineStoreFS st list
      = (true, { file := withLineFeeds (bannerLines ++ (list.map slotLines).flatten),
                 unread := st.unread }) := by
  unfold saveConfigFile
  have hopen : lineStoreFS.openToWrite st = (true, { file := [], unread := st.unread }) := rfl
  simp only [hopen, Bool.not_true, Bool.false_eq_true, if_false]
  rw [writeSlots_lineStore, writeAll_lineStore, bannerWrites_flatten, withLineFeeds_append]
  simp [lineStoreFS]

theorem loadLoop_line (fuel : Nat) (f l rest line : CStr) (list : List uEspConfigLibList)
    (hl : '\n' ∉ l) :
    loadLoop lineStoreFS (fuel + 1) { file := f, unread := l ++ '\n' :: rest } line list
      = loadLoop lineStoreFS fuel { file := f, unread := rest } l (_parseConfigLine list l) := by
  have hne : l ++ '\n' :: rest ≠ [] := by simp
  have hall : ∀ c ∈ l, (c != '\n') = true := by
    intro c hc
    simp only [bne_iff_ne, ne_eq]
    intro e
    exact hl (e ▸ hc)
  have htake : (l ++ '\n' :: rest).takeWhile (fun c => c != '\n') = l := by
    rw [List.takeWhile_append_of_pos hall]
    simp
  have hdrop : ((l ++ '\n' :: rest).dropWhile (fun c => c != '\n')).drop 1 = rest := by
    rw [List.dropWhile_append_of_pos hall]
    simp
  have hread : lineStoreFS.readLine { file := f, unread := l ++ '\n' :: rest } line
      = (true, l, { file := f, unread := rest }) := by
    simp only [lineStoreFS, hne, if_false, htake, hdrop]
  simp only [loadLoop, hread, if_true]

theorem loadLoop_lines (f : CStr) (ls : List CStr) :
    ∀ (fuel : Nat) (rest line : CStr) (list : List uEspConfigLibList),
      (∀ l ∈ ls, '\n' ∉ l) →
      ∃ line1, loadLoop lineStoreFS (fuel + ls.length)
          { file := f, unread := withLineFeeds ls ++ rest } line list
        = loadLoop lineStoreFS fuel { file := f, unread := rest } line1
            (ls.foldl _parseConfigLine list) := by
  induction ls with
  | nil => intro fuel rest line list _; exact ⟨line, by simp [withLineFeeds]⟩
  | cons l tail ih =>
    intro fuel rest line list h
    have hl := h l (List.mem_cons_self _ _)
    have ht : ∀ x ∈ tail, '\n' ∉ x := fun x hx => h x (List.mem_cons_of_mem _ hx)
    rcases ih fuel rest l (_parseConfigLine list l) ht with ⟨line1, h1⟩
    refine ⟨line1, ?_⟩
    rw [withLineFeeds_cons, List.length_cons, ← Nat.add_assoc, List.append_assoc,
      List.cons_append, loadLoop_line _ f l _ line list hl, h1, List.foldl_cons]

theorem loadLoop_end (fuel : Nat) (f line : CStr) (list : List uEspConfigLibList) :
    loadLoop lineStoreFS (fuel + 1) { file := f, unread := [] } line list
      = some ({ file := f, unread := [] }, list) := by
  simp [loadLoop, lineStoreFS]

theorem loadConfigFile_lineStore (fuel : Nat) (ls : List CStr) (u : CStr)
    (list : List uEspConfigLibList) (h : ∀ l ∈ ls, '\n' ∉ l) (hfuel : ls.length < fuel) :
    loadConfigFile lineStoreFS fuel { file := withLineFeeds ls, unread := u } list
      = some (true, { file := withLineFeeds ls, unread := [] },
          ls.foldl _parseConfigLine list) := by
  obtain ⟨k, rfl⟩ : ∃ k, fuel = (k + 1) + ls.length := ⟨fuel - ls.length - 1, by omega⟩
  rcases loadLoop_lines (withLineFeeds ls) ls (k + 1) [] [] list h with ⟨line1, h1⟩
  rw [List.append_nil, loadLoop_end] at h1
  unfold loadConfigFile
  have hopen : lineStoreFS.openToRead { file := withLineFeeds ls, unread := u }
      = (true, { file := withLineFeeds ls, unread := withLineFeeds ls }) := rfl
  simp only [hopen, Bool.not_true, Bool.false_eq_true, if_false, h1]
  simp [lineStoreFS]

theorem trim_cons_nonspace (a : Char) (s : CStr) (ha : isspace a = false) :
    ∃ r, trim (a :: s) = a :: r := by
  unfold trim
  rw [List.dropWhile_cons_of_neg (by simp [ha]), List.reverse_cons, List.dropWhile_append]
  split
  · exact ⟨[], by simp [ha]⟩
  · exact ⟨(s.reverse.dropWhile isspace).reverse, by simp⟩

theorem parseConfigLine_comment (list : List uEspConfigLibList) (line : CStr)
    (h : isComment (trim line) = true) : _parseConfigLine list line = list := by
  rw [parseConfigLine_unfold, if_pos h]

theorem parseConfigLine_hash (list : List uEspConfigLibList) (s : CStr) :
    _parseConfigLine list ('#' :: s) = list := by
  rcases trim_cons_nonspace '#' s (by decide) with ⟨r, hr⟩
  apply parseConfigLine_comment
  rw [hr]
  simp [isComment, startsWith, String.toList]

theorem parseConfigLine_nil (list : List uEspConfigLibList) : _parseConfigLine list [] = list := by
  rw [parseConfigLine_unfold]
  have h1 : trim [] = [] := rfl
  have h2 : isComment [] = false := rfl
  simp [h1, h2, indexOf]

theorem plainName_spec (s : CStr) (h : plainName s = true) :
    s ≠ [] ∧ noOuterSpace s = true ∧ '\n' ∉ s ∧ '=' ∉ s ∧ isComment s = false := by
  simp only [plainName, Bool.and_eq_true, decide_eq_true_eq, Bool.not_eq_true'] at h
  exact ⟨h.1.1.1.1.1, h.1.1.1.1.2, h.1.1.1.2, h.1.2, h.2⟩

theorem plainValue_spec (s : CStr) (h : plainValue s = true) :
    noOuterSpace s = true ∧ '\n' ∉ s := by
  simp only [plainValue, Bool.and_eq_true, decide_eq_true_eq] at h
  exact ⟨h.1.1, h.1.2⟩

theorem foldl_slotLines (list : List uEspConfigLibList) (slot : uEspConfigLibList)
    (hn : plainName slot.name = true) (hv : plainValue slot.value = true) :
    (slotLines slot).foldl _parseConfigLine list = (set list slot.name slot.value).2 := by
  rcases plainName_spec _ hn with ⟨hne, hno, _, heq, hc⟩
  have hassign := parseConfigLine_assignment list slot.name slot.value [] [' '] [' '] []
    hne hno heq hc (plainValue_spec _ hv).1 (by simp) (by decide) (by simp) (by decide) (by simp)
  have hline : slot.name ++ " = ".toList ++ slot.value
      = [] ++ slot.name ++ [' '] ++ '=' :: ([' '] ++ slot.value ++ []) := by
    simp [String.toList]
  have h2 : "# ".toList ++ slot.name ++ " -- ".toList ++ slot.description
      = '#' :: (' ' :: (slot.name ++ " -- ".toList ++ slot.description)) := by
    simp [String.toList]
  have h3 : "# Default value: ".toList ++ slot.defaultValue
      = '#' :: (" Default value: ".toList ++ slot.defaultValue) := by
    simp [String.toList]
  simp only [slotLines, List.foldl_cons, List.foldl_nil, parseConfigLine_nil]
  rw [h2, h3, parseConfigLine_hash, parseConfigLine_hash, hline, hassign]

theorem foldl_comment_lines (ls : List CStr) (list : List uEspConfigLibList)
    (h : ∀ l ∈ ls, isComment (trim l) = true) : ls.foldl _parseConfigLine list = list := by
  induction ls with
  | nil => rfl
  | cons l tail ih =>
    rw [List.foldl_cons, parseConfigLine_comment list l (h l (List.mem_cons_self _ _))]
    exact ih (fun x hx => h x (List.mem_cons_of_mem _ hx))

theorem foldl_bannerLines (list : List uEspConfigLibList) :
    bannerLines.foldl _parseConfigLine list = list :=
  foldl_comment_lines bannerLines list (by decide)

theorem foldl_all_slotLines (slots : List uEspConfigLibList) :
    ∀ list : List uEspConfigLibList,
      (∀ s ∈ slots, plainName s.name = true ∧ plainValue s.value = true) →
      (slots.map slotLines).flatten.foldl _parseConfigLine list
        = slots.foldl (fun r s => (set r s.name s.value).2) list := by
  induction slots with
  | nil => intro list _; rfl
  | cons s rest ih =>
    intro list h
    have hs := h s (List.mem_cons_self _ _)
    rw [List.map_cons, List.flatten_cons, List.foldl_append, foldl_slotLines list s hs.1 hs.2,
      List.foldl_cons]
    exact ih _ (fun x hx => h x (List.mem_cons_of_mem _ hx))

theorem names_foldl_set (slots : List uEspConfigLibList) :
    ∀ list : List uEspConfigLibList,
      names (slots.foldl (fun r s => (set r s.name s.value).2) list) = names list := by
  induction slots with
  | nil => intro list; rfl
  | cons s rest ih => intro list; rw [List.foldl_cons, ih, names_set]

theorem getPointer_foldl_set_other (slots : List uEspConfigLibList) (name : CStr)
    (h : name ∉ names slots) :
    ∀ list : List uEspConfigLibList,
      getPointer (slots.foldl (fun r s => (set r s.name s.value).2) list) name
        = getPointer list name := by
  induction slots with
  | nil => intro list; rfl
  | cons s rest ih =>
    intro list
    rw [names_cons, List.mem_cons, not_or] at h
    rw [List.foldl_cons, ih h.2, getPointer_set_other _ _ _ _ h.1]

theorem getPointer_foldl_set (slots : List uEspConfigLibList) (hu : (names slots).Nodup) :
    ∀ list : List uEspConfigLibList, (∀ s ∈ slots, s.name ∈ names list) →
      ∀ s ∈ slots,
        getPointer (slots.foldl (fun r s => (set r s.name s.value).2) list) s.name
          = some s.value := by
  induction slots with
  | nil => intro list _ s hs; cases hs
  | cons t rest ih =>
    intro list hin s hs
    rw [names_cons, List.nodup_cons] at hu
    rw [List.foldl_cons]
    rcases List.mem_cons.1 hs with h | h
    · subst h
      rw [getPointer_foldl_set_other rest s.name hu.1,
        getPointer_set_same list s.name s.value (hin s (List.mem_cons_self _ _))]
    · apply ih hu.2 _ _ s h
      intro x hx
      rw [names_set]
      exact hin x (List.mem_cons_of_mem _ hx)

theorem savedLines_no_line_feed (list : List uEspConfigLibList)
    (hn : ∀ s ∈ list, '\n' ∉ s.name) (hv : ∀ s ∈ list, '\n' ∉ s.value)
    (hd : ∀ s ∈ list, '\n' ∉ s.description) (hf : ∀ s ∈ list, '\n' ∉ s.defaultValue) :
    ∀ l ∈ bannerLines ++ (list.map slotLines).flatten, '\n' ∉ l := by
  intro l hl
  rcases List.mem_append.1 hl with h | h
  · have hb : ∀ x ∈ bannerLines, '\n' ∉ x := by decide
    exact hb l h
  · simp only [List.mem_flatten, List.mem_map] at h
    rcases h with ⟨ls, ⟨s, hs, rfl⟩, hmem⟩
    have h1 := hn s hs
    have h2 := hv s hs
    have h3 := hd s hs
    have h4 := hf s hs
    simp only [slotLines, List.mem_cons, List.mem_singleton, List.not_mem_nil, or_false] at hmem
    rcases hmem with rfl | rfl | rfl | rfl
    · simp
    · simp [String.toList, h1, h3]
    · simp [String.toList, h4]
    · simp [String.toList, h1, h2]

theorem names_fresh (list : List uEspConfigLibList) (hu : (names list).Nodup) :
    names (defineAll [] (list.map toDef)) = names list := by
  have hmap : (list.map toDef).map (fun d => d.name) = names list := by
    simp [names, toDef, Function.comp_def]
  rw [defineAll_fresh (list.map toDef) [] (hmap ▸ hu) (fun _ _ h => by cases h)]
  simp [names, newSlot, toDef, Function.comp_def]

set_option maxRecDepth 100000 in
/-- C10, as stated, fails: `injectingRegistry` has distinct plain names and plain values, option
`aa` holds `1`, and after `saveConfigFile` and `loadConfigFile` into the rebuilt registry option
`aa` holds `evil`, the text injected by the description of option `bb`. -/
theorem C10_roundtrip_counterexample :
    (names injectingRegistry).Nodup ∧
    (∀ s ∈ injectingRegistry, plainName s.name = true ∧ plainValue s.value = true) ∧
    getPointer injectingRegistry "aa".toList = some "1".toList ∧
    ∃ st1 list1,
      loadConfigFile lineStoreFS 20 (saveConfigFile lineStoreFS ⟨[], []⟩ injectingRegistry).2
        (defineAll [] (injectingRegistry.map toDef)) = some (true, st1, list1) ∧
      getPointer list1 "aa".toList = some "evil".toList ∧
      getPointer list1 "aa".toList ≠ getPointer injectingRegistry "aa".toList := by
  refine ⟨by decide, by decide, by decide, _, _, rfl, by decide, by decide⟩

/-- C10, amended: over the line-faithful backend, for a registry with pairwise distinct plain
names and plain current values whose descriptions and default values contain no line feed,
`saveConfigFile` succeeds and `loadConfigFile`, given enough iterations, returns true on the
registry rebuilt by the same `addOption` calls, which then has the same names in the same order
and for every option the value it had when saved. -/
theorem C10_roundtrip_single_line_texts (list : List uEspConfigLibList) (st0 : LineStore)
    (hu : (names list).Nodup)
    (hplain : ∀ s ∈ list, plainName s.name = true ∧ plainValue s.value = true)
    (hd : ∀ s ∈ list, '\n' ∉ s.description) (hf : ∀ s ∈ list, '\n' ∉ s.defaultValue) :
    (saveConfigFile lineStoreFS st0 list).1 = true ∧
    ∃ bound, ∀ fuel, bound ≤ fuel → ∃ st1 list1,
      loadConfigFile lineStoreFS fuel (saveConfigFile lineStoreFS st0 list).2
        (defineAll [] (list.map toDef)) = some (true, st1, list1) ∧
      names list1 = names list ∧
      ∀ s ∈ list, getPointer list1 s.name = some s.value := by
  rw [saveConfigFile_lineStore]
  refine ⟨rfl, (bannerLines ++ (list.map slotLines).flatten).length + 1, ?_⟩
  intro fuel hfuel
  have hlines := savedLines_no_line_feed list
    (fun s hs => (plainName_spec _ (hplain s hs).1).2.2.1)
    (fun s hs => (plainValue_spec _ (hplain s hs).2).2) hd hf
  refine ⟨_, _, loadConfigFile_lineStore fuel _ st0.unread _ hlines (by omega), ?_, ?_⟩
  · rw [List.foldl_append, foldl_bannerLines, foldl_all_slotLines list _ hplain,
      names_foldl_set, names_fresh list hu]
  · rw [List.foldl_append, foldl_bannerLines, foldl_all_slotLines list _ hplain]
    apply getPointer_foldl_set list hu
    intro s hs
    rw [names_fresh list hu]
    exact List.mem_map_of_mem (fun s => s.name) hs

theorem C10_roundtrip_single_line_texts_witness :
    (saveConfigFile lineStoreFS ⟨[], []⟩ singleLineRegistry).1 = true ∧
    ∃ bound, ∀ fuel, bound ≤ fuel → ∃ st1 list1,
      loadConfigFile lineStoreFS fuel (saveConfigFile lineStoreFS ⟨[], []⟩ singleLineRegistry).2
        (defineAll [] (singleLineRegistry.map toDef)) = some (true, st1, list1) ∧
      names list1 = names singleLineRegistry ∧
      ∀ s ∈ singleLineRegistry, getPointer list1 s.name = some s.value :=
  C10_roundtrip_single_line_texts singleLineRegistry ⟨[], []⟩ (by decide) (by decide)
    (by decide) (by decide)

/-! ## Calls issued by `saveConfigFile` and `loadConfigFile` -/

theorem writeAll_recordFS {σ : Type} (fs : FSInterface σ) (pieces : List CStr) :
    ∀ (st : σ) (log : List FSCall),
      writeAll (recordFS fs) (st, log) pieces
        = (writeAll fs st pieces, log ++ pieces.map FSCall.write) := by
  induction pieces with
  | nil => intro st log; simp [writeAll]
  | cons d rest ih =>
    intro st log
    have hstep : writeAll (recordFS fs) (st, log) (d :: rest)
        = writeAll (recordFS fs) ((fs.write st d).2, log ++ [FSCall.write d]) rest := rfl
    have hstep2 : writeAll fs st (d :: rest) = writeAll fs (fs.write st d).2 rest := rfl
    rw [hstep, ih, hstep2]
    simp

theorem writeSlots_recordFS {σ : Type} (fs : FSInterface σ) (list : List uEspConfigLibList) :
    ∀ (st : σ) (log : List FSCall),
      list.foldl (fun s slot => writeAll (recordFS fs) s (slotWrites slot)) (st, log)
        = (list.foldl (fun s slot => writeAll fs s (slotWrites slot)) st,
            log ++ ((list.map slotWrites).flatten).map FSCall.write) := by
  induction list with
  | nil => intro st log; simp
  | cons slot rest ih =>
    intro st log
    rw [List.foldl_cons, writeAll_recordFS, ih]
    simp

theorem saveConfigFile_recordFS {σ : Type} (fs : FSInterface σ) (st : σ)
    (list : List uEspConfigLibList) :
    saveConfigFile (recordFS fs) (st, []) list
      = if (fs.openToWrite st).1 = true then
          (true, (saveConfigFile fs st list).2,
            FSCall.openToWrite ::
              ((bannerWrites ++ (list.map slotWrites).flatten).map FSCall.write
                ++ [FSCall.closeFile]))
        else (false, (fs.openToWrite st).2, [FSCall.openToWrite]) := by
  unfold saveConfigFile
  by_cases h : (fs.openToWrite st).1 = true
  · have h1 : ((recordFS fs).openToWrite (st, [])) =
        (true, ((fs.openToWrite st).2, [FSCall.openToWrite])) := by
      simp [recordFS, h]
    simp only [h1, h, Bool.not_true, Bool.false_eq_true, if_false, if_true]
    rw [writeAll_recordFS, writeSlots_recordFS]
    simp [recordFS]
  · have h0 : (fs.openToWrite st).1 = false := by simpa using h
    have h1 : ((recordFS fs).openToWrite (st, [])) =
        (false, ((fs.openToWrite st).2, [FSCall.openToWrite])) := by
      simp [recordFS, h0]
    simp [h1, h0]

theorem writesOf_append (a b : List FSCall) : writesOf (a ++ b) = writesOf a ++ writesOf b := by
  induction a with
  | nil => rfl
  | cons c rest ih => cases c <;> simp [writesOf, ih]

theorem writesOf_map_write (ds : List CStr) : writesOf (ds.map FSCall.write) = ds := by
  induction ds with
  | nil => rfl
  | cons d rest ih => simp [writesOf, ih]

theorem slotWrites_flatten_block (slot : uEspConfigLibList) :
    (slotWrites slot).flatten = block slot := by
  simp [slotWrites, block]

theorem flatten_slotWrites (list : List uEspConfigLibList) :
    ((list.map slotWrites).flatten).flatten = (list.map block).flatten := by
  induction list with
  | nil => rfl
  | cons s rest ih =>
    rw [List.map_cons, List.flatten_cons, List.flatten_append, ih, slotWrites_flatten_block,
      List.map_cons, List.flatten_cons]

/-- C11: when `openToWrite` succeeds, the strings `saveConfigFile` passes to `write`,
concatenated in call order, are the banner followed by `block o` for every option `o` in list
order; the banner is made of the lines `bannerLines`, each starting with `#`. The embedding of
`saveConfigFile` returns no registry: the source only reads the nodes. -/
theorem C11_saveConfigFile_text {σ : Type} (fs : FSInterface σ) (st : σ)
    (list : List uEspConfigLibList) (hopen : (fs.openToWrite st).1 = true) :
    (writesOf (saveConfigFile (recordFS fs) (st, []) list).2.2).flatten
      = bannerWrites.flatten ++ (list.map block).flatten ∧
    bannerWrites.flatten = withLineFeeds bannerLines ∧
    (∀ l ∈ bannerLines, l.head? = some '#') := by
  refine ⟨?_, bannerWrites_flatten, by decide⟩
  rw [saveConfigFile_recordFS, if_pos hopen]
  have h : writesOf (FSCall.openToWrite ::
      ((bannerWrites ++ (list.map slotWrites).flatten).map FSCall.write ++ [FSCall.closeFile]))
      = bannerWrites ++ (list.map slotWrites).flatten := by
    have h1 : writesOf [FSCall.closeFile] = [] := rfl
    show writesOf (_ ++ _) = _
    rw [writesOf_append, writesOf_map_write, h1, List.append_nil]
  simp only [h, List.flatten_append, flatten_slotWrites]

theorem C11_saveConfigFile_text_witness :
    (writesOf (saveConfigFile (recordFS lineStoreFS) (⟨[], []⟩, []) singleLineRegistry).2.2).flatten
      = bannerWrites.flatten ++ (singleLineRegistry.map block).flatten :=
  (C11_saveConfigFile_text lineStoreFS ⟨[], []⟩ singleLineRegistry rfl).1

set_option maxRecDepth 1000000 in
/-- C12: evaluation at the failing inputs. On a backend whose `closeFile` returns false,
`saveConfigFile` returns true, that `closeFile` being its last call. On the EEPROM store over a
blank medium, after the writes for `twoOptionRegistry` 24 bytes are staged, the `closeFile` call
returns false, and `saveConfigFile` still returns true with no driver call made: nothing was
saved. -/
theorem C12_saveConfigFile_swallows_close_failure :
    (saveConfigFile (recordFS failingCloseFS) ((), []) []).1 = true ∧
    (saveConfigFile (recordFS failingCloseFS) ((), []) []).2.2.getLast? = some FSCall.closeFile ∧
    (failingCloseFS.closeFile ()).1 = false ∧
    (twoOptionRegistry.foldl (fun s slot => writeAll eepromFS s (slotWrites slot))
      (writeAll eepromFS (eepromFS.openToWrite freshStore).2 bannerWrites))._bufferPosition = 24 ∧
    (eepromFS.closeFile
      (twoOptionRegistry.foldl (fun s slot => writeAll eepromFS s (slotWrites slot))
        (writeAll eepromFS (eepromFS.openToWrite freshStore).2 bannerWrites))).1 = false ∧
    (saveConfigFile eepromFS freshStore twoOptionRegistry).1 = true ∧
    (saveConfigFile eepromFS freshStore twoOptionRegistry).2._eeprom.calls = [] := by
  decide

theorem frame_parseConfigLine (list : List uEspConfigLibList) (line : CStr) :
    (_parseConfigLine list line).map (fun s => s.description)
        = list.map (fun s => s.description) ∧
    (_parseConfigLine list line).map (fun s => s.defaultValue)
        = list.map (fun s => s.defaultValue) ∧
    (_parseConfigLine list line).map (fun s => s.option) = list.map (fun s => s.option) := by
  rw [parseConfigLine_unfold]
  split
  · exact ⟨rfl, rfl, rfl⟩
  · split
    · exact ⟨rfl, rfl, rfl⟩
    · exact set_frame _ _ _

theorem loadLoop_recordFS {σ : Type} (fs : FSInterface σ) :
    ∀ (n : Nat) (st : σ) (log : List FSCall) (line : CStr) (list : List uEspConfigLibList)
      (fuel : Nat), firstFailAt fs n st line = true → n < fuel →
      ∃ st1 list1, loadLoop (recordFS fs) fuel (st, log) line list
          = some ((st1, log ++ List.replicate (n + 1) FSCall.readLine), list1) ∧
        names list1 = names list ∧
        list1.map (fun s => s.description) = list.map (fun s => s.description) ∧
        list1.map (fun s => s.defaultValue) = list.map (fun s => s.defaultValue) ∧
        list1.map (fun s => s.option) = list.map (fun s => s.option) := by
  intro n
  induction n with
  | zero =>
    intro st log line list fuel hfail hfuel
    obtain ⟨k, rfl⟩ : ∃ k, fuel = k + 1 := ⟨fuel - 1, by omega⟩
    simp only [firstFailAt, Bool.not_eq_true'] at hfail
    refine ⟨(fs.readLine st line).2.2, list, ?_, rfl, rfl, rfl, rfl⟩
    simp [loadLoop, recordFS, hfail]
  | succ m ih =>
    intro st log line list fuel hfail hfuel
    obtain ⟨k, rfl⟩ : ∃ k, fuel = k + 1 := ⟨fuel - 1, by omega⟩
    simp only [firstFailAt, Bool.and_eq_true] at hfail
    rcases ih (fs.readLine st line).2.2 (log ++ [FSCall.readLine]) (fs.readLine st line).2.1
      (_parseConfigLine list (fs.readLine st line).2.1) k hfail.2 (by omega)
      with ⟨st1, list1, h1, h2, h3, h4, h5⟩
    refine ⟨st1, list1, ?_, ?_, ?_, ?_, ?_⟩
    · have hrec : loadLoop (recordFS fs) (k + 1) (st, log) line list
          = loadLoop (recordFS fs) k ((fs.readLine st line).2.2, log ++ [FSCall.readLine])
              (fs.readLine st line).2.1 (_parseConfigLine list (fs.readLine st line).2.1) := by
        simp [loadLoop, recordFS, hfail.1]
      rw [hrec, h1, List.replicate_succ (n := m + 1)]
      simp
    · rw [h2, names_parseConfigLine]
    · rw [h3, (frame_parseConfigLine _ _).1]
    · rw [h4, (frame_parseConfigLine _ _).2.1]
    · rw [h5, (frame_parseConfigLine _ _).2.2]

/-- C13: `loadConfigFile` returns false exactly when `openToRead` fails, and then `openToRead`
is its only backend call and the registry is unchanged. When the open succeeds and `readLine`
succeeds `n` times before failing, `loadConfigFile` returns true (for every iteration bound
above `n`), its calls are `openToRead`, `n + 1` times `readLine` and then one `closeFile`, and
names, order, descriptions, defaults and flags of the registry are unchanged. -/
theorem C13_loadConfigFile_frame {σ : Type} (fs : FSInterface σ) (st : σ)
    (list : List uEspConfigLibList) :
    ((fs.openToRead st).1 = false → ∀ fuel,
      loadConfigFile (recordFS fs) fuel (st, []) list
        = some (false, ((fs.openToRead st).2, [FSCall.openToRead]), list)) ∧
    ((fs.openToRead st).1 = true → ∀ n, firstFailAt fs n (fs.openToRead st).2 [] = true →
      ∀ fuel, n < fuel → ∃ st1 list1,
        loadConfigFile (recordFS fs) fuel (st, []) list
          = some (true, (st1, FSCall.openToRead :: (List.replicate (n + 1) FSCall.readLine
              ++ [FSCall.closeFile])), list1) ∧
        names list1 = names list ∧
        list1.map (fun s => s.description) = list.map (fun s => s.description) ∧
        list1.map (fun s => s.defaultValue) = list.map (fun s => s.defaultValue) ∧
        list1.map (fun s => s.option) = list.map (fun s => s.option)) ∧
    (∀ fuel r, loadConfigFile (recordFS fs) fuel (st, []) list = some r →
      (r.1 = false ↔ (fs.openToRead st).1 = false)) := by
  refine ⟨?_, ?_, ?_⟩
  · intro h fuel
    simp [loadConfigFile, recordFS, h]
  · intro h n hn fuel hfuel
    rcases loadLoop_recordFS fs n (fs.openToRead st).2 [FSCall.openToRead] [] list fuel hn hfuel
      with ⟨st1, list1, h1, h2, h3, h4, h5⟩
    refine ⟨(fs.closeFile st1).2, list1, ?_, h2, h3, h4, h5⟩
    have hopen : (recordFS fs).openToRead (st, [])
        = (true, ((fs.openToRead st).2, [FSCall.openToRead])) := by
      simp [recordFS, h]
    unfold loadConfigFile
    simp only [hopen, Bool.not_true, Bool.false_eq_true, if_false, h1]
    simp [recordFS]
  · intro fuel r hr
    unfold loadConfigFile at hr
    cases h : (fs.openToRead st).1
    · have hopen : ((recordFS fs).openToRead (st, [])).1 = false := by simp [recordFS, h]
      simp only [hopen, Bool.not_false, if_true, Option.some.injEq] at hr
      rw [← hr]
    · have hopen : ((recordFS fs).openToRead (st, [])).1 = true := by simp [recordFS, h]
      simp only [hopen, Bool.not_true, Bool.false_eq_true, if_false] at hr
      split at hr
      · cases hr
      · simp only [Option.some.injEq] at hr
        rw [← hr]

theorem C13_loadConfigFile_frame_witness :
    ∃ st1 list1,
      loadConfigFile (recordFS lineStoreFS) 3 (⟨"a = 1\nzz\n".toList, []⟩, []) singleLineRegistry
        = some (true, (st1, FSCall.openToRead :: (List.replicate (2 + 1) FSCall.readLine
            ++ [FSCall.closeFile])), list1) ∧
      names list1 = names singleLineRegistry :=
  match (C13_loadConfigFile_frame lineStoreFS ⟨"a = 1\nzz\n".toList, []⟩ singleLineRegistry).2.1
      rfl 2 (by decide) 3 (by decide) with
  | ⟨st1, list1, h1, h2, _⟩ => ⟨st1, list1, h1, h2⟩

open uEspConfigLibFSEEPROM

/-! ## EEPROM backend: closing a write session -/

theorem writeFlush_not_open (st : uEspConfigLibFSEEPROM)
    (h : st._status ≠ uEspConfigLibFS_STATUS_OPEN_WRITE) : _writeFlush st = (false, st) := by
  simp [_writeFlush, h]

theorem closeFile_pending (st : uEspConfigLibFSEEPROM)
    (hs : st._status = uEspConfigLibFS_STATUS_OPEN_WRITE) (hb : st._bufferPosition > 0) :
    closeFile st = (false, { st with _status := uEspConfigLibFS_STATUS_CLOSED }) := by
  unfold closeFile
  rw [if_pos ⟨hs, hb⟩]
  exact writeFlush_not_open _ (by simp)

set_option maxRecDepth 100000 in
/-- C14: evaluation at the failing input. After `openToWrite(); write("real=1\n");` seven bytes
are staged in status OPEN_WRITE; `closeFile` returns false, leaves status CLOSED, makes no call
of the EEPROM driver and the medium still holds null bytes at addresses 0 to 7. -/
theorem C14_closeFile_drops_pending_bytes :
    (writeSession "real=1\n".toList)._status = uEspConfigLibFS_STATUS_OPEN_WRITE ∧
    (writeSession "real=1\n".toList)._bufferPosition = 7 ∧
    (writeSession "real=1\n".toList)._position = 0 ∧
    bytesAt (writeSession "real=1\n".toList)._buffer 0 7 = "real=1\n".toList ∧
    (closeFile (writeSession "real=1\n".toList)).1 = false ∧
    (closeFile (writeSession "real=1\n".toList)).2._status = uEspConfigLibFS_STATUS_CLOSED ∧
    (closeFile (writeSession "real=1\n".toList)).2._eeprom.calls = [] ∧
    bytesAt (closeFile (writeSession "real=1\n".toList)).2._eeprom.cells 0 8
      = List.replicate 8 '\x00' := by
  decide

set_option maxRecDepth 1000000 in
/-- C15: evaluation at the failing input. `blockPayload` has 128 bytes, `write` accepts it and
stages all of them, `closeFile` returns false without any driver call, and after `openToRead`
the first `readLine` fails: no line comes back. -/
theorem C15_block_payload_not_read_back :
    blockPayload.length = 128 ∧
    (write (openToWrite freshStore).2 blockPayload).1 = true ∧
    (writeSession blockPayload)._bufferPosition = 128 ∧
    (closeFile (writeSession blockPayload)).1 = false ∧
    (closeFile (writeSession blockPayload)).2._eeprom.calls = [] ∧
    (readLines 400 (reopened blockPayload)).1 = [] ∧
    (readLines 400 (reopened blockPayload)).1.flatten ≠ blockPayload := by
  decide

set_option maxRecDepth 1000000 in
/-- C16: evaluation at the failing input. For `# comment\nreal=1\n` the write filter stages
exactly `real=1\n`, but `closeFile` returns false without any driver call, and after
`openToRead` the first `readLine` fails: the line `real=1` is not read back. -/
theorem C16_comment_input_not_read_back :
    (write (openToWrite freshStore).2 "# comment\nreal=1\n".toList).1 = true ∧
    (writeSession "# comment\nreal=1\n".toList)._bufferPosition = 7 ∧
    bytesAt (writeSession "# comment\nreal=1\n".toList)._buffer 0 7 = "real=1\n".toList ∧
    (closeFile (writeSession "# comment\nreal=1\n".toList)).1 = false ∧
    (closeFile (writeSession "# comment\nreal=1\n".toList)).2._eeprom.calls = [] ∧
    (readLine (reopened "# comment\nreal=1\n".toList) []).1 = false ∧
    (readLines 400 (reopened "# comment\nreal=1\n".toList)).1 = [] := by
  decide

open uEspConfigLibFSEEPROM

/-! ## EEPROM backend: status -/

theorem status_writeFlush (st : uEspConfigLibFSEEPROM) :
    (_writeFlush st).2._status = st._status := by
  unfold _writeFlush
  split
  · rfl
  · split <;> rfl

theorem status_writeByte (st : uEspConfigLibFSEEPROM) (c : Char) (rest : List Char) :
    (writeByte st c rest)._status = st._status := by
  unfold writeByte
  split
  · rfl
  · split
    · rfl
    · split <;> split <;> rfl

theorem status_writeLoop (data : List Char) :
    ∀ st : uEspConfigLibFSEEPROM, (writeLoop data st).2._status = st._status := by
  induction data with
  | nil => intro st; rfl
  | cons c rest ih =>
    intro st
    unfold writeLoop
    split
    · split
      · exact status_writeFlush st
      · rw [ih, status_writeByte, status_writeFlush]
    · rw [ih, status_writeByte]

theorem status_write (st : uEspConfigLibFSEEPROM) (data : CStr) :
    (write st data).2._status = st._status := by
  unfold write
  split
  · rfl
  · exact status_writeLoop data st

theorem status_readLineLoop (loops : Nat) :
    ∀ (st : uEspConfigLibFSEEPROM) (line : CStr),
      (readLineLoop loops st line).2.2._status = st._status := by
  induction loops with
  | zero => intro st line; rfl
  | succ n ih =>
    intro st line
    unfold readLineLoop
    simp only
    split
    · rfl
    · split
      · rfl
      · rw [ih]

theorem status_readLine (st : uEspConfigLibFSEEPROM) (line : CStr) :
    (readLine st line).2.2._status = st._status := by
  unfold readLine
  split
  · rfl
  · exact status_readLineLoop 400 st []

theorem status_closeFile_ne_fatal (st : uEspConfigLibFSEEPROM)
    (h : st._status ≠ uEspConfigLibFS_STATUS_FATAL) :
    (closeFile st).2._status ≠ uEspConfigLibFS_STATUS_FATAL := by
  unfold closeFile
  split
  · rw [status_writeFlush]
    simp
  · split
    · simp
    · exact h

/-- C20: in status FATAL each of `openToRead`, `openToWrite`, `readLine`, `write` and
`closeFile` returns false and returns the store, medium and driver call log included, exactly as
it was (`readLine` also leaves the caller's string); and from a status other than FATAL none of
the five operations leads to FATAL. -/
theorem C20_fatal_is_absorbing (st : uEspConfigLibFSEEPROM) (line data : CStr) :
    (st._status = uEspConfigLibFS_STATUS_FATAL →
      openToRead st = (false, st) ∧ openToWrite st = (false, st) ∧
      readLine st line = (false, line, st) ∧ write st data = (false, st) ∧
      closeFile st = (false, st)) ∧
    (st._status ≠ uEspConfigLibFS_STATUS_FATAL →
      (openToRead st).2._status ≠ uEspConfigLibFS_STATUS_FATAL ∧
      (openToWrite st).2._status ≠ uEspConfigLibFS_STATUS_FATAL ∧
      (readLine st line).2.2._status ≠ uEspConfigLibFS_STATUS_FATAL ∧
      (write st data).2._status ≠ uEspConfigLibFS_STATUS_FATAL ∧
      (closeFile st).2._status ≠ uEspConfigLibFS_STATUS_FATAL) := by
  constructor
  · intro h
    refine ⟨?_, ?_, ?_, ?_, ?_⟩
    · simp [openToRead, h]
    · simp [openToWrite, h]
    · simp [readLine, h]
    · simp [write, h]
    · simp [closeFile, h]
  · intro h
    refine ⟨?_, ?_, ?_, ?_, status_closeFile_ne_fatal st h⟩
    · simp [openToRead, h]
    · simp [openToWrite, h]
    · rw [status_readLine]; exact h
    · rw [status_write]; exact h

theorem C20_fatal_is_absorbing_witness :
    closeFile { freshStore with _status := uEspConfigLibFS_STATUS_FATAL }
      = (false, { freshStore with _status := uEspConfigLibFS_STATUS_FATAL }) ∧
    (closeFile (writeSession "real=1\n".toList)).2._status ≠ uEspConfigLibFS_STATUS_FATAL :=
  ⟨((C20_fatal_is_absorbing { freshStore with _status := uEspConfigLibFS_STATUS_FATAL }
      [] [] ).1 rfl).2.2.2.2,
   ((C20_fatal_is_absorbing (writeSession "real=1\n".toList) [] []).2 (by decide)).2.2.2.2⟩

open uEspConfigLibFSEEPROM

/-! ## EEPROM backend: `readLine` -/

theorem bytesAt_length (f : Nat → Char) (n : Nat) : ∀ a, (bytesAt f a n).length = n := by
  induction n with
  | zero => intro a; rfl
  | succ m ih => intro a; simp [bytesAt, ih]

theorem bytesAt_append (f : Nat → Char) (m n : Nat) :
    ∀ a, bytesAt f a (m + n) = bytesAt f a m ++ bytesAt f (a + m) n := by
  induction m with
  | zero => intro a; simp [bytesAt]
  | succ k ih =>
    intro a
    have h : k + 1 + n = (k + n) + 1 := by omega
    rw [h]
    simp only [bytesAt, List.cons_append, ih (a + 1)]
    have h2 : a + 1 + k = a + (k + 1) := by omega
    rw [h2]

theorem mem_bytesAt (f : Nat → Char) (n : Nat) :
    ∀ a b, b ∈ bytesAt f a n → ∃ j, j < n ∧ b = f (a + j) := by
  induction n with
  | zero => intro a b h; cases h
  | succ m ih =>
    intro a b h
    simp only [bytesAt, List.mem_cons] at h
    rcases h with h | h
    · exact ⟨0, by omega, by simpa using h⟩
    · rcases ih (a + 1) b h with ⟨j, hj, hb⟩
      exact ⟨j + 1, by omega, by rw [hb]; congr 1; omega⟩

theorem bytesAt_congr (f g : Nat → Char) (n : Nat) :
    ∀ a b, (∀ j, j < n → f (a + j) = g (b + j)) → bytesAt f a n = bytesAt g b n := by
  induction n with
  | zero => intro a b _; rfl
  | succ m ih =>
    intro a b h
    simp only [bytesAt]
    have h0 := h 0 (by omega)
    simp only [Nat.add_zero] at h0
    rw [h0, ih (a + 1) (b + 1)]
    intro j hj
    have := h (j + 1) (by omega)
    have e1 : a + 1 + j = a + (j + 1) := by omega
    have e2 : b + 1 + j = b + (j + 1) := by omega
    rw [e1, e2]
    exact this

theorem eeprom_read_ok (m : Medium) (a : Nat) (buffer : Nat → Char) (n : Nat)
    (h : m.readOk m.calls a = true) :
    (eeprom_read m a buffer n).1 = true ∧
    bytesAt (eeprom_read m a buffer n).2.1 0 n = bytesAt m.cells a n ∧
    (eeprom_read m a buffer n).2.2
      = { m with calls := m.calls ++ [EepromCall.read a n] } := by
  simp only [eeprom_read, h, if_true, true_and, and_true]
  apply bytesAt_congr
  intro j hj
  simp [hj]

theorem eeprom_read_fail (m : Medium) (a : Nat) (buffer : Nat → Char) (n : Nat)
    (h : m.readOk m.calls a = false) :
    eeprom_read m a buffer n
      = (false, buffer, { m with calls := m.calls ++ [EepromCall.read a n] }) := by
  simp [eeprom_read, h]

theorem stopsScan_false {c : Char} (h : stopsScan c = false) :
    c ≠ '\x00' ∧ ¬ (c = '\n' ∨ c = '\r') := by
  simp only [stopsScan, Bool.or_eq_false_iff, beq_eq_false_iff_ne, ne_eq] at h
  exact ⟨h.1.1, fun hc => hc.elim h.1.2 h.2⟩

theorem scanBlock_clean (bs : List Char) :
    ∀ (line : CStr) (position : Nat), (∀ b ∈ bs, stopsScan b = false) →
      scanBlock bs line position = (none, line ++ bs, position + bs.length) := by
  induction bs with
  | nil => intro line position _; simp [scanBlock]
  | cons b rest ih =>
    intro line position h
    have hb := stopsScan_false (h b (List.mem_cons_self _ _))
    unfold scanBlock
    rw [if_neg hb.1, if_neg hb.2, ih _ _ (fun x hx => h x (List.mem_cons_of_mem _ hx))]
    simp [Nat.add_assoc, Nat.add_comm 1]

theorem scanBlock_stop (pre post : List Char) (t : Char) (line : CStr) (position : Nat)
    (hpre : ∀ b ∈ pre, stopsScan b = false) (ht : stopsScan t = true) :
    scanBlock (pre ++ t :: post) line position
      = (some (decide (t ≠ '\x00')), line ++ pre ++ [t], position + pre.length + 1) := by
  induction pre generalizing line position with
  | nil =>
    unfold scanBlock
    by_cases h0 : t = '\x00'
    · simp [h0]
    · have hnl : t = '\n' ∨ t = '\r' := by
        simp only [stopsScan, Bool.or_eq_true, beq_iff_eq] at ht
        rcases ht with (h | h) | h
        · exact absurd h h0
        · exact Or.inl h
        · exact Or.inr h
      simp [h0, hnl]
  | cons b rest ih =>
    have hb := stopsScan_false (hpre b (List.mem_cons_self _ _))
    rw [List.cons_append]
    unfold scanBlock
    rw [if_neg hb.1, if_neg hb.2, ih _ _ (fun x hx => hpre x (List.mem_cons_of_mem _ hx))]
    simp [Nat.add_assoc, Nat.add_comm 1]

open uEspConfigLibFSEEPROM

theorem readLineLoop_step_fail (loops : Nat) (st : uEspConfigLibFSEEPROM) (line : CStr)
    (h : st._eeprom.readOk st._eeprom.calls st._position = false) :
    readLineLoop (loops + 1) st line = (false, line, afterFailedRead st) := by
  rw [readLineLoop]
  simp only [eeprom_read_fail _ _ _ _ h, Bool.not_false, if_true]
  rfl

theorem readLineLoop_step_some (loops : Nat) (st : uEspConfigLibFSEEPROM) (line : CStr)
    (h : st._eeprom.readOk st._eeprom.calls st._position = true) (b : Bool) (l2 : CStr) (p2 : Nat)
    (hs : scanBlock (bytesAt st._eeprom.cells st._position 128) line st._position
      = (some b, l2, p2)) :
    readLineLoop (loops + 1) st line = (b, l2, { afterBlockRead st with _position := p2 }) := by
  have hr := eeprom_read_ok st._eeprom st._position st._buffer 128 h
  rw [readLineLoop]
  simp only [hr.1, hr.2.1, hr.2.2, hs, Bool.not_true, Bool.false_eq_true, if_false]
  rfl

theorem readLineLoop_step_none (loops : Nat) (st : uEspConfigLibFSEEPROM) (line : CStr)
    (h : st._eeprom.readOk st._eeprom.calls st._position = true) (l2 : CStr) (p2 : Nat)
    (hs : scanBlock (bytesAt st._eeprom.cells st._position 128) line st._position
      = (none, l2, p2)) :
    readLineLoop (loops + 1) st line
      = readLineLoop loops { afterBlockRead st with _position := p2 } l2 := by
  have hr := eeprom_read_ok st._eeprom st._position st._buffer 128 h
  rw [readLineLoop]
  simp only [hr.1, hr.2.1, hr.2.2, hs, Bool.not_true, Bool.false_eq_true, if_false]
  rfl

theorem readLineLoop_stop (loops : Nat) :
    ∀ (st : uEspConfigLibFSEEPROM) (line : CStr) (k : Nat),
      (∀ calls a, st._eeprom.readOk calls a = true) → k < 128 * loops →
      (∀ j, j < k → stopsScan (st._eeprom.cells (st._position + j)) = false) →
      stopsScan (st._eeprom.cells (st._position + k)) = true →
      (readLineLoop loops st line).1 = decide (st._eeprom.cells (st._position + k) ≠ '\x00') ∧
      (readLineLoop loops st line).2.1 = line ++ bytesAt st._eeprom.cells st._position (k + 1) ∧
      (readLineLoop loops st line).2.2._position = st._position + k + 1 := by
  induction loops with
  | zero => intro st line k _ hk; omega
  | succ n ih =>
    intro st line k hread hk hclean hstop
    by_cases hlt : k < 128
    · have hsplit : bytesAt st._eeprom.cells st._position 128
          = bytesAt st._eeprom.cells st._position k
            ++ st._eeprom.cells (st._position + k)
              :: bytesAt st._eeprom.cells (st._position + k + 1) (127 - k) := by
        have e : 128 = k + (1 + (127 - k)) := by omega
        rw [e, bytesAt_append, bytesAt_append]
        simp [bytesAt]
      have hpre : ∀ b ∈ bytesAt st._eeprom.cells st._position k, stopsScan b = false := by
        intro b hb
        rcases mem_bytesAt _ _ _ _ hb with ⟨j, hj, rfl⟩
        exact hclean j hj
      have hs := scanBlock_stop _ (bytesAt st._eeprom.cells (st._position + k + 1) (127 - k))
        _ line st._position hpre hstop
      rw [← hsplit] at hs
      rw [readLineLoop_step_some n st line (hread _ _) _ _ _ hs]
      refine ⟨rfl, ?_, ?_⟩
      · show line ++ bytesAt st._eeprom.cells st._position k
            ++ [st._eeprom.cells (st._position + k)] = _
        rw [bytesAt_append, List.append_assoc]
        simp [bytesAt]
      · show st._position + (bytesAt st._eeprom.cells st._position k).length + 1 = _
        rw [bytesAt_length]
    · have hblock : ∀ b ∈ bytesAt st._eeprom.cells st._position 128, stopsScan b = false := by
        intro b hb
        rcases mem_bytesAt _ _ _ _ hb with ⟨j, hj, rfl⟩
        exact hclean j (by omega)
      have hs := scanBlock_clean _ line st._position hblock
      rw [bytesAt_length] at hs
      rw [readLineLoop_step_none n st line (hread _ _) _ _ hs]
      have e : st._position + k = st._position + 128 + (k - 128) := by omega
      have hrec := ih { afterBlockRead st with _position := st._position + 128 }
        (line ++ bytesAt st._eeprom.cells st._position 128) (k - 128)
        (fun calls a => hread calls a) (by omega)
        (fun j hj => by
          have := hclean (128 + j) (by omega)
          have e2 : st._position + (128 + j) = st._position + 128 + j := by omega
          rw [e2] at this
          exact this)
        (by rw [e] at hstop; exact hstop)
      have hc : ({ afterBlockRead st with _position := st._position + 128 } :
          uEspConfigLibFSEEPROM)._eeprom.cells = st._eeprom.cells := rfl
      have hp : ({ afterBlockRead st with _position := st._position + 128 } :
          uEspConfigLibFSEEPROM)._position = st._position + 128 := rfl
      rw [hc, hp] at hrec
      refine ⟨hrec.1.trans ?_, hrec.2.1.trans ?_, hrec.2.2.trans ?_⟩
      · rw [e]
      · have e3 : k + 1 = 128 + (k - 128 + 1) := by omega
        rw [e3, bytesAt_append _ 128 (k - 128 + 1), List.append_assoc]
      · omega

theorem readLineLoop_cap (loops : Nat) :
    ∀ (st : uEspConfigLibFSEEPROM) (line : CStr),
      (∀ calls a, st._eeprom.readOk calls a = true) →
      (∀ j, j < 128 * loops → stopsScan (st._eeprom.cells (st._position + j)) = false) →
      (readLineLoop loops st line).1 = false ∧
      (readLineLoop loops st line).2.1
        = line ++ bytesAt st._eeprom.cells st._position (128 * loops) ∧
      (readLineLoop loops st line).2.2._position = st._position + 128 * loops := by
  induction loops with
  | zero => intro st line _ _; simp [readLineLoop, bytesAt]
  | succ n ih =>
    intro st line hread hclean
    have hblock : ∀ b ∈ bytesAt st._eeprom.cells st._position 128, stopsScan b = false := by
      intro b hb
      rcases mem_bytesAt _ _ _ _ hb with ⟨j, hj, rfl⟩
      exact hclean j (by omega)
    have hs := scanBlock_clean _ line st._position hblock
    rw [bytesAt_length] at hs
    rw [readLineLoop_step_none n st line (hread _ _) _ _ hs]
    have hrec := ih { afterBlockRead st with _position := st._position + 128 }
      (line ++ bytesAt st._eeprom.cells st._position 128)
      (fun calls a => hread calls a)
      (fun j hj => by
        have := hclean (128 + j) (by omega)
        have e2 : st._position + (128 + j) = st._position + 128 + j := by omega
        rw [e2] at this
        exact this)
    have hc : ({ afterBlockRead st with _position := st._position + 128 } :
        uEspConfigLibFSEEPROM)._eeprom.cells = st._eeprom.cells := rfl
    have hp : ({ afterBlockRead st with _position := st._position + 128 } :
        uEspConfigLibFSEEPROM)._position = st._position + 128 := rfl
    rw [hc, hp] at hrec
    refine ⟨hrec.1, hrec.2.1.trans ?_, hrec.2.2.trans ?_⟩
    · have e3 : 128 * (n + 1) = 128 + 128 * n := by omega
      rw [e3, bytesAt_append _ 128 (128 * n), List.append_assoc]
    · omega

theorem readLineLoop_calls (loops : Nat) :
    ∀ (st : uEspConfigLibFSEEPROM) (line : CStr),
      ∃ extra, (readLineLoop loops st line).2.2._eeprom.calls = st._eeprom.calls ++ extra ∧
        extra.length ≤ loops ∧ ∀ e ∈ extra, ∃ a, e = EepromCall.read a 128 := by
  induction loops with
  | zero => intro st line; exact ⟨[], by simp [readLineLoop], by simp, by simp⟩
  | succ n ih =>
    intro st line
    cases hr : st._eeprom.readOk st._eeprom.calls st._position with
    | false =>
      rw [readLineLoop_step_fail n st line hr]
      exact ⟨[EepromCall.read st._position 128], rfl, by simp, by simp⟩
    | true =>
      cases hs : scanBlock (bytesAt st._eeprom.cells st._position 128) line st._position with
      | mk res rest =>
        cases rest with
        | mk l2 p2 =>
          cases res with
          | some b =>
            rw [readLineLoop_step_some n st line hr b l2 p2 hs]
            exact ⟨[EepromCall.read st._position 128], rfl, by simp, by simp⟩
          | none =>
            rw [readLineLoop_step_none n st line hr l2 p2 hs]
            rcases ih { afterBlockRead st with _position := p2 } l2 with ⟨extra, h1, h2, h3⟩
            refine ⟨EepromCall.read st._position 128 :: extra, ?_, by simp; omega, ?_⟩
            · rw [h1]
              simp [afterBlockRead]
            · intro e he
              rcases List.mem_cons.1 he with h | h
              · exact ⟨_, h⟩
              · exact h3 e h

open uEspConfigLibFSEEPROM

theorem readLine_open (st : uEspConfigLibFSEEPROM) (line : CStr)
    (hst : st._status = uEspConfigLibFS_STATUS_OPEN_READ) :
    readLine st line = readLineLoop 400 st [] := by
  simp [readLine, hst]

theorem readLine_terminator (st : uEspConfigLibFSEEPROM) (line : CStr) (k : Nat)
    (hst : st._status = uEspConfigLibFS_STATUS_OPEN_READ)
    (hread : ∀ calls a, st._eeprom.readOk calls a = true) (hk : k < 51200)
    (hclean : ∀ j, j < k → stopsScan (st._eeprom.cells (st._position + j)) = false)
    (hterm : st._eeprom.cells (st._position + k) = '\n' ∨
      st._eeprom.cells (st._position + k) = '\r') :
    (readLine st line).1 = true ∧
    (readLine st line).2.1 = bytesAt st._eeprom.cells st._position (k + 1) ∧
    (readLine st line).2.2._position = st._position + k + 1 := by
  have hstop : stopsScan (st._eeprom.cells (st._position + k)) = true := by
    rcases hterm with h | h <;> rw [h] <;> decide
  have hne : st._eeprom.cells (st._position + k) ≠ '\x00' := by
    rcases hterm with h | h <;> rw [h] <;> decide
  have h := readLineLoop_stop 400 st [] k hread (by omega) hclean hstop
  rw [readLine_open st line hst]
  refine ⟨?_, ?_, h.2.2⟩
  · rw [h.1]
    simp [hne]
  · rw [h.2.1]
    simp

/-- C17: in status OPEN_READ with successful medium reads, let `k < 51200` be the offset from the
cursor `c` of the first byte that is null, line feed or carriage return. If `k > 0` and that
byte is a line feed or carriage return, `readLine` returns true, the caller's string holds
exactly the bytes at `c .. c + k` (terminator included, previous content discarded) and the
cursor is `c + k + 1`. If that byte is null, `readLine` returns false, whatever `k` is. -/
theorem C17_readLine_first_terminator (st : uEspConfigLibFSEEPROM) (line : CStr) (k : Nat)
    (hst : st._status = uEspConfigLibFS_STATUS_OPEN_READ)
    (hread : ∀ calls a, st._eeprom.readOk calls a = true) (hk : k < 51200)
    (hclean : ∀ j, j < k → stopsScan (st._eeprom.cells (st._position + j)) = false)
    (hstop : stopsScan (st._eeprom.cells (st._position + k)) = true) :
    (0 < k → (st._eeprom.cells (st._position + k) = '\n' ∨
        st._eeprom.cells (st._position + k) = '\r') →
      (readLine st line).1 = true ∧
      (readLine st line).2.1 = bytesAt st._eeprom.cells st._position (k + 1) ∧
      (readLine st line).2.2._position = st._position + k + 1) ∧
    (st._eeprom.cells (st._position + k) = '\x00' → (readLine st line).1 = false) := by
  constructor
  · intro _ hterm
    exact readLine_terminator st line k hst hread hk hclean hterm
  · intro h0
    have h := readLineLoop_stop 400 st [] k hread (by omega) hclean hstop
    rw [readLine_open st line hst, h.1]
    simp [h0]

theorem C17_readLine_first_terminator_witness :
    ((readLine twoLineStore "old".toList).1 = true ∧
      (readLine twoLineStore "old".toList).2.1 = "ab\n".toList ∧
      (readLine twoLineStore "old".toList).2.2._position = 3) ∧
    (readLine (readLine twoLineStore "old".toList).2.2 []).1 = false :=
  ⟨(C17_readLine_first_terminator twoLineStore "old".toList 2 rfl (fun _ _ => rfl)
      (by decide) (by decide) (by decide)).1 (by decide) (Or.inl (by decide)),
   (C17_readLine_first_terminator (readLine twoLineStore "old".toList).2.2 [] 2
      (by decide) (fun _ _ => rfl) (by decide) (by decide) (by decide)).2 (by decide)⟩

set_option maxRecDepth 100000 in
/-- C18, as stated, fails: `emptyLineStore` is open for reading with a line feed at the cursor,
and `readLine` returns true with the caller's string holding that line feed. -/
theorem C18_empty_line_counterexample :
    emptyLineStore._status = uEspConfigLibFS_STATUS_OPEN_READ ∧
    emptyLineStore._eeprom.cells emptyLineStore._position = '\n' ∧
    (readLine emptyLineStore []).1 = true ∧
    (readLine emptyLineStore []).2.1 = ['\n'] := by
  decide

/-- C18, amended: in status OPEN_READ with successful medium reads, when the first byte at or
after the cursor `c` that is null, line feed or carriage return lies at offset `k < 51200` and
is a line feed or carriage return, `readLine` returns true, also for `k = 0` (the byte at the
cursor is the terminator, the line is empty): the test `length() > 0` is made after the
terminator was appended. The caller's string then holds the bytes at `c .. c + k` and the cursor
is `c + k + 1`. -/
theorem C18_readLine_terminator_returns_true (st : uEspConfigLibFSEEPROM) (line : CStr)
    (k : Nat) (hst : st._status = uEspConfigLibFS_STATUS_OPEN_READ)
    (hread : ∀ calls a, st._eeprom.readOk calls a = true) (hk : k < 51200)
    (hclean : ∀ j, j < k → stopsScan (st._eeprom.cells (st._position + j)) = false)
    (hterm : st._eeprom.cells (st._position + k) = '\n' ∨
      st._eeprom.cells (st._position + k) = '\r') :
    (readLine st line).1 = true ∧
    (readLine st line).2.1 = bytesAt st._eeprom.cells st._position (k + 1) ∧
    (readLine st line).2.2._position = st._position + k + 1 :=
  readLine_terminator st line k hst hread hk hclean hterm

theorem C18_readLine_terminator_returns_true_witness :
    (readLine emptyLineStore []).1 = true ∧
    (readLine emptyLineStore []).2.1 = ['\n'] ∧
    (readLine emptyLineStore []).2.2._position = 1 :=
  C18_readLine_terminator_returns_true emptyLineStore [] 0 rfl (fun _ _ => rfl) (by decide)
    (by decide) (Or.inl (by decide))

/-- C19: `readLine` makes at most 400 driver calls, each a read of 128 bytes; when the reads
succeed and none of the 51200 bytes from the cursor on is null, line feed or carriage return, it
returns false with the cursor advanced by exactly 51200; and when a block read fails, in any
iteration of the loop, it returns false at once, with the bytes read so far in the caller's
string and nothing changed but the driver call log. -/
theorem C19_readLine_bounded_scan (st : uEspConfigLibFSEEPROM) (line : CStr)
    (hst : st._status = uEspConfigLibFS_STATUS_OPEN_READ) :
    (∃ extra, (readLine st line).2.2._eeprom.calls = st._eeprom.calls ++ extra ∧
      extra.length ≤ 400 ∧ ∀ e ∈ extra, ∃ a, e = EepromCall.read a 128) ∧
    ((∀ calls a, st._eeprom.readOk calls a = true) →
      (∀ j, j < 51200 → stopsScan (st._eeprom.cells (st._position + j)) = false) →
      (readLine st line).1 = false ∧
      (readLine st line).2.2._position = st._position + 51200) ∧
    (st._eeprom.readOk st._eeprom.calls st._position = false →
      readLine st line = (false, [], afterFailedRead st)) ∧
    (∀ (loops : Nat) (s : uEspConfigLibFSEEPROM) (l : CStr),
      s._eeprom.readOk s._eeprom.calls s._position = false →
      readLineLoop (loops + 1) s l = (false, l, afterFailedRead s)) := by
  rw [readLine_open st line hst]
  refine ⟨readLineLoop_calls 400 st [], ?_, ?_, ?_⟩
  · intro hread hclean
    have h := readLineLoop_cap 400 st [] hread (fun j hj => hclean j (by omega))
    exact ⟨h.1, h.2.2⟩
  · intro hfail
    exact readLineLoop_step_fail 399 st [] hfail
  · intro loops s l hfail
    exact readLineLoop_step_fail loops s l hfail

theorem C19_readLine_bounded_scan_witness :
    ((readLine unterminatedStore []).1 = false ∧
      (readLine unterminatedStore []).2.2._position = unterminatedStore._position + 51200) ∧
    readLine unreadableStore "old".toList = (false, [], afterFailedRead unreadableStore) :=
  ⟨(C19_readLine_bounded_scan unterminatedStore [] rfl).2.1 (fun _ _ => rfl) (fun _ _ => rfl),
   (C19_readLine_bounded_scan unreadableStore "old".toList rfl).2.2.1 rfl⟩

open uEspConfigLibFSEEPROM

/-! ## EEPROM backend: protocol violations and closing without pending data -/

/-- C21: `readLine` in a status other than OPEN_READ returns false and leaves the store, the
medium with its call log and the caller's string as they were; `write` in a status other than
OPEN_WRITE returns false and leaves the store and the medium as they were. -/
theorem C21_wrong_status_is_refused (st : uEspConfigLibFSEEPROM) (line data : CStr) :
    (st._status ≠ uEspConfigLibFS_STATUS_OPEN_READ → readLine st line = (false, line, st)) ∧
    (st._status ≠ uEspConfigLibFS_STATUS_OPEN_WRITE → write st data = (false, st)) := by
  constructor
  · intro h
    simp [readLine, h]
  · intro h
    simp [write, h]

theorem C21_wrong_status_is_refused_witness :
    readLine freshStore "old".toList = (false, "old".toList, freshStore) ∧
    write freshStore "a=1\n".toList = (false, freshStore) :=
  ⟨(C21_wrong_status_is_refused freshStore "old".toList "a=1\n".toList).1 (by decide),
   (C21_wrong_status_is_refused freshStore "old".toList "a=1\n".toList).2 (by decide)⟩

theorem closeFile_not_open (st : uEspConfigLibFSEEPROM)
    (hr : st._status ≠ uEspConfigLibFS_STATUS_OPEN_READ)
    (hw : st._status ≠ uEspConfigLibFS_STATUS_OPEN_WRITE) : closeFile st = (false, st) := by
  simp [closeFile, hr, hw]

theorem status_closeFile_not_open (st : uEspConfigLibFSEEPROM) :
    (closeFile st).2._status ≠ uEspConfigLibFS_STATUS_OPEN_READ ∧
    (closeFile st).2._status ≠ uEspConfigLibFS_STATUS_OPEN_WRITE := by
  unfold closeFile
  split
  · rw [status_writeFlush]
    simp
  · split
    · simp
    · rename_i h1 h2
      simp only [not_or] at h2
      exact h2

/-- C22: from OPEN_READ, or from OPEN_WRITE with an empty staging buffer, `closeFile` returns
true and changes nothing but the status, which becomes CLOSED (no driver call is made); from
CLOSED it returns false and changes nothing; and after any `closeFile` a second `closeFile`
returns false. -/
theorem C22_closeFile_without_pending_data (st : uEspConfigLibFSEEPROM) :
    (st._status = uEspConfigLibFS_STATUS_OPEN_READ ∨
        (st._status = uEspConfigLibFS_STATUS_OPEN_WRITE ∧ st._bufferPosition = 0) →
      closeFile st = (true, { st with _status := uEspConfigLibFS_STATUS_CLOSED })) ∧
    (st._status = uEspConfigLibFS_STATUS_CLOSED → closeFile st = (false, st)) ∧
    (closeFile (closeFile st).2).1 = false := by
  refine ⟨?_, ?_, ?_⟩
  · intro h
    rcases h with h | ⟨h, hb⟩
    · simp [closeFile, h]
    · simp [closeFile, h, hb]
  · intro h
    simp [closeFile, h]
  · rw [closeFile_not_open _ (status_closeFile_not_open st).1 (status_closeFile_not_open st).2]

theorem C22_closeFile_without_pending_data_witness :
    closeFile twoLineStore
      = (true, { twoLineStore with _status := uEspConfigLibFS_STATUS_CLOSED }) ∧
    closeFile freshStore = (false, freshStore) :=
  ⟨(C22_closeFile_without_pending_data twoLineStore).1 (Or.inl (by decide)),
   (C22_closeFile_without_pending_data freshStore).2.1 (by decide)⟩

/-! ## Flags on redefinition and the `status()` accessor -/

/-- C23: evaluation at the failing input. In a registry `ssid`, `port` with flags 0 and 0,
redefining `port` with flags 1 leaves the flags of `port` at 0 and sets the flags of the head
entry `ssid` to 1; description, default and value of `port` are updated. -/
theorem C23_redefinition_writes_head_flags :
    (addOption twoOptionRegistry "port".toList "d".toList "443".toList 1).map
        (fun s => (s.name, s.option))
      = [("ssid".toList, 1), ("port".toList, 0)] ∧
    (addOption twoOptionRegistry "port".toList "d".toList "443".toList 1).map
        (fun s => s.value)
      = ["home".toList, "443".toList] := by
  decide

/-- C24: `status()` returns the `_status` member of the base class, which no operation of the
EEPROM store assigns: whatever value it holds after construction, `status()` returns that same
value after a successful `openToRead`, `openToWrite` and `closeFile`, while the store's own
`_status` goes through OPEN_READ, OPEN_WRITE and CLOSED; so `status()` cannot be CLOSED after
construction and OPEN_READ after `openToRead`. -/
theorem C24_status_reads_unassigned_member (indeterminate : Nat) (m : Medium)
    (buffer : Nat → Char) :
    (EepromObject.construct indeterminate m buffer).status = indeterminate ∧
    (EepromObject.construct indeterminate m buffer).openToRead.1 = true ∧
    (EepromObject.construct indeterminate m buffer).openToRead.2.status = indeterminate ∧
    (EepromObject.construct indeterminate m buffer).openToRead.2.derived._status
      = uEspConfigLibFS_STATUS_OPEN_READ ∧
    (EepromObject.construct indeterminate m buffer).openToWrite.1 = true ∧
    (EepromObject.construct indeterminate m buffer).openToWrite.2.status = indeterminate ∧
    (EepromObject.construct indeterminate m buffer).openToWrite.2.derived._status
      = uEspConfigLibFS_STATUS_OPEN_WRITE ∧
    (EepromObject.construct indeterminate m buffer).openToRead.2.closeFile.1 = true ∧
    (EepromObject.construct indeterminate m buffer).openToRead.2.closeFile.2.status
      = indeterminate ∧
    ¬ ((EepromObject.construct indeterminate m buffer).status = uEspConfigLibFS_STATUS_CLOSED ∧
       (EepromObject.construct indeterminate m buffer).openToRead.2.status
         = uEspConfigLibFS_STATUS_OPEN_READ) := by
  refine ⟨rfl, rfl, rfl, rfl, rfl, rfl, rfl, rfl, rfl, ?_⟩
  intro h
  have h1 : indeterminate = uEspConfigLibFS_STATUS_CLOSED := h.1
  have h2 : indeterminate = uEspConfigLibFS_STATUS_OPEN_READ := h.2
  rw [h1] at h2
  exact absurd h2 (by decide)

open uEspConfigLibFSEEPROM

/-! ## EEPROM backend: `_writeFlush` and `write` -/

theorem bytesAt_update_beyond (f : Nat → Char) (i : Nat) (c : Char) (n : Nat) :
    ∀ a, a + n ≤ i → bytesAt (Function.update f i c) a n = bytesAt f a n := by
  intro a h
  apply bytesAt_congr
  intro j hj
  have : a + j ≠ i := by omega
  simp [Function.update, this]

theorem bytesAt_update_snoc (f : Nat → Char) (i : Nat) (c : Char) :
    bytesAt (Function.update f i c) 0 (i + 1) = bytesAt f 0 i ++ [c] := by
  rw [bytesAt_append, bytesAt_update_beyond f i c i 0 (by omega)]
  simp [bytesAt, Function.update]

/-- C26: `_writeFlush` in status OPEN_WRITE with `n` staged bytes at cursor `c`. For `n = 0` it
returns false and changes nothing. For `0 < n < 128` it makes exactly one driver call, a write
at `c` of the `n` staged bytes followed by one null byte; for `n = 128` exactly one driver call,
a write at `c` of the 128 staged bytes. In both cases the cursor becomes `c + n`, the staging
length 0, and the result is the result of that driver write, also when it fails. -/
theorem C26_writeFlush_blocks (st : uEspConfigLibFSEEPROM)
    (hst : st._status = uEspConfigLibFS_STATUS_OPEN_WRITE) :
    (st._bufferPosition = 0 → _writeFlush st = (false, st)) ∧
    (0 < st._bufferPosition → st._bufferPosition < 128 →
      (_writeFlush st).2._eeprom.calls = st._eeprom.calls ++
        [EepromCall.write st._position (bytesAt st._buffer 0 st._bufferPosition ++ ['\x00'])] ∧
      (_writeFlush st).2._position = st._position + st._bufferPosition ∧
      (_writeFlush st).2._bufferPosition = 0 ∧
      (_writeFlush st).1 = st._eeprom.writeOk st._eeprom.calls st._position) ∧
    (st._bufferPosition = 128 →
      (_writeFlush st).2._eeprom.calls = st._eeprom.calls ++
        [EepromCall.write st._position (bytesAt st._buffer 0 128)] ∧
      (_writeFlush st).2._position = st._position + 128 ∧
      (_writeFlush st).2._bufferPosition = 0 ∧
      (_writeFlush st).1 = st._eeprom.writeOk st._eeprom.calls st._position) := by
  refine ⟨?_, ?_, ?_⟩
  · intro h0
    simp [_writeFlush, h0]
  · intro hpos hlt
    have h0 : st._bufferPosition ≠ 0 := by omega
    have hdata := bytesAt_update_snoc st._buffer st._bufferPosition '\x00'
    cases hw : st._eeprom.writeOk st._eeprom.calls st._position <;>
      simp [_writeFlush, hst, h0, hlt, eeprom_write, hw, hdata]
  · intro h128
    cases hw : st._eeprom.writeOk st._eeprom.calls st._position <;>
      simp [_writeFlush, hst, h128, eeprom_write, hw]

theorem C26_writeFlush_blocks_witness :
    (_writeFlush (writeSession "real=1\n".toList)).2._eeprom.calls
      = (writeSession "real=1\n".toList)._eeprom.calls ++
        [EepromCall.write (writeSession "real=1\n".toList)._position
          (bytesAt (writeSession "real=1\n".toList)._buffer 0
            (writeSession "real=1\n".toList)._bufferPosition ++ ['\x00'])] :=
  ((C26_writeFlush_blocks (writeSession "real=1\n".toList) (by decide)).2.1
    (by decide) (by decide)).1

/-- C27: in status OPEN_WRITE at a line start, outside a comment and with at most 124 staged
bytes, `write("/")` followed by `write("/x\n")` returns true twice and appends the four bytes
`//x\n` to the staged bytes, whereas the single call `write("//x\n")` returns true and leaves the
store exactly as it was: it stages nothing. -/
theorem C27_split_slashes_not_detected (st : uEspConfigLibFSEEPROM)
    (hst : st._status = uEspConfigLibFS_STATUS_OPEN_WRITE) (hl : st._saveLineStart = true)
    (hc : st._saveInComment = false) (hb : st._bufferPosition ≤ 124) :
    (write st "/".toList).1 = true ∧
    (write (write st "/".toList).2 "/x\n".toList).1 = true ∧
    (write (write st "/".toList).2 "/x\n".toList).2._bufferPosition = st._bufferPosition + 4 ∧
    bytesAt (write (write st "/".toList).2 "/x\n".toList).2._buffer st._bufferPosition 4
      = "//x\n".toList ∧
    bytesAt (write (write st "/".toList).2 "/x\n".toList).2._buffer 0 st._bufferPosition
      = bytesAt st._buffer 0 st._bufferPosition ∧
    write st "//x\n".toList = (true, st) := by
  have h1 : ¬ (128 ≤ st._bufferPosition) := by omega
  have h2 : ¬ (128 ≤ st._bufferPosition + 1) := by omega
  have h3 : ¬ (128 ≤ st._bufferPosition + 1 + 1) := by omega
  have h4 : ¬ (128 ≤ st._bufferPosition + 1 + 1 + 1) := by omega
  have hfinal : write (write st "/".toList).2 "/x\n".toList
      = (true,
          { _buffer :=
              Function.update
                (Function.update
                  (Function.update (Function.update st._buffer st._bufferPosition '/')
                    (st._bufferPosition + 1) '/')
                  (st._bufferPosition + 1 + 1) 'x')
                (st._bufferPosition + 1 + 1 + 1) '\n',
            _position := st._position, _bufferPosition := st._bufferPosition + 1 + 1 + 1 + 1,
            _status := uEspConfigLibFS_STATUS_OPEN_WRITE, _saveInComment := false,
            _saveLineStart := true, _eeprom := st._eeprom }) := by
    simp [write, writeLoop, writeByte, hst, hl, hc, h1, h2, h3, h4, String.toList]
  have e1 : ¬ st._bufferPosition = st._bufferPosition + 1 := by omega
  have e2 : ¬ st._bufferPosition = st._bufferPosition + 1 + 1 := by omega
  have e3 : ¬ st._bufferPosition = st._bufferPosition + 1 + 1 + 1 := by omega
  have e4 : ¬ st._bufferPosition + 1 = st._bufferPosition + 1 + 1 := by omega
  have e5 : ¬ st._bufferPosition + 1 = st._bufferPosition + 1 + 1 + 1 := by omega
  have e6 : ¬ st._bufferPosition + 1 + 1 = st._bufferPosition + 1 + 1 + 1 := by omega
  rw [hfinal]
  refine ⟨?_, rfl, rfl, ?_, ?_, ?_⟩
  · simp [write, writeLoop, writeByte, hst, hl, hc, h1, String.toList]
  · simp [bytesAt, Function.update, e1, e2, e3, e4, e5, e6, String.toList]
  · show bytesAt (Function.update _ _ _) 0 st._bufferPosition = _
    rw [bytesAt_update_beyond _ _ _ _ 0 (by omega), bytesAt_update_beyond _ _ _ _ 0 (by omega),
      bytesAt_update_beyond _ _ _ _ 0 (by omega), bytesAt_update_beyond _ _ _ _ 0 (by omega)]
  · have hsingle : write st "//x\n".toList
        = (true, { st with _saveInComment := false, _saveLineStart := true }) := by
      simp [write, writeLoop, writeByte, hst, hl, hc, h1, String.toList]
    rw [hsingle]
    cases st
    simp only at hl hc
    subst hl
    subst hc
    rfl

theorem C27_split_slashes_not_detected_witness :
    (write (write (openToWrite freshStore).2 "/".toList).2 "/x\n".toList).2._bufferPosition
      = (openToWrite freshStore).2._bufferPosition + 4 ∧
    bytesAt (write (write (openToWrite freshStore).2 "/".toList).2 "/x\n".toList).2._buffer
        (openToWrite freshStore).2._bufferPosition 4 = "//x\n".toList ∧
    write (openToWrite freshStore).2 "//x\n".toList = (true, (openToWrite freshStore).2) :=
  ⟨(C27_split_slashes_not_detected (openToWrite freshStore).2 rfl rfl rfl (by decide)).2.2.1,
   (C27_split_slashes_not_detected (openToWrite freshStore).2 rfl rfl rfl (by decide)).2.2.2.1,
   (C27_split_slashes_not_detected (openToWrite freshStore).2 rfl rfl rfl
      (by decide)).2.2.2.2.2⟩

open uEspConfigLibFSEEPROM

/-! ## EEPROM backend: bounds of the staging buffer -/

theorem writeFlushChecked_eq (st : uEspConfigLibFSEEPROM) :
    _writeFlushChecked st = some (_writeFlush st) := by
  unfold _writeFlushChecked _writeFlush
  split
  · rfl
  · split
    · rename_i hlt
      simp [storeChecked, hlt]
    · rfl

theorem writeByteChecked_eq (st : uEspConfigLibFSEEPROM) (c : Char) (rest : List Char)
    (h : st._bufferPosition < 128) :
    writeByteChecked st c rest = some (writeByte st c rest) := by
  unfold writeByteChecked writeByte
  split
  · rfl
  · split
    · rfl
    · split
      · simp only [storeChecked, h, if_true]
        split <;> rfl
      · split <;> rfl

theorem bufferPosition_writeByte (st : uEspConfigLibFSEEPROM) (c : Char) (rest : List Char) :
    (writeByte st c rest)._bufferPosition ≤ st._bufferPosition + 1 := by
  unfold writeByte
  split
  · omega
  · split
    · simp
    · split <;> split <;> simp

theorem writeFlush_full (st : uEspConfigLibFSEEPROM) :
    (_writeFlush st).1 = false ∨ (_writeFlush st).2._bufferPosition = 0 := by
  unfold _writeFlush
  split
  · exact Or.inl rfl
  · split
    · exact Or.inr rfl
    · exact Or.inr rfl

theorem bufferPosition_writeFlush (st : uEspConfigLibFSEEPROM) :
    (_writeFlush st).2._bufferPosition ≤ st._bufferPosition := by
  unfold _writeFlush
  split
  · exact Nat.le_refl _
  · split <;> simp

theorem writeLoopChecked_eq (data : List Char) :
    ∀ st : uEspConfigLibFSEEPROM, writeLoopChecked data st = some (writeLoop data st) := by
  induction data with
  | nil => intro st; rfl
  | cons c rest ih =>
    intro st
    rw [writeLoopChecked, writeLoop]
    by_cases hfull : st._bufferPosition ≥ uEspConfigLibFSEEPROM_BUFFER_SIZE
    · simp only [hfull, if_true, writeFlushChecked_eq]
      rcases writeFlush_full st with h | h
      · simp [h]
      · cases hres : (_writeFlush st).1
        · simp
        · simp only [Bool.not_true, Bool.false_eq_true, if_false]
          rw [writeByteChecked_eq _ _ _ (by omega)]
          exact ih _
    · simp only [hfull, if_false]
      rw [writeByteChecked_eq _ _ _ (by simpa using hfull)]
      exact ih _

theorem bufferPosition_writeLoop (data : List Char) :
    ∀ st : uEspConfigLibFSEEPROM, st._bufferPosition ≤ 128 →
      (writeLoop data st).2._bufferPosition ≤ 128 := by
  induction data with
  | nil => intro st h; exact h
  | cons c rest ih =>
    intro st h
    rw [writeLoop]
    by_cases hfull : st._bufferPosition ≥ uEspConfigLibFSEEPROM_BUFFER_SIZE
    · simp only [hfull, if_true]
      have hle := bufferPosition_writeFlush st
      split
      · show (_writeFlush st).2._bufferPosition ≤ 128
        omega
      · rename_i hok
        apply ih
        have hb := bufferPosition_writeByte (_writeFlush st).2 c rest
        rcases writeFlush_full st with h0 | h0
        · simp [h0] at hok
        · omega
    · simp only [hfull, if_false]
      apply ih
      have hb := bufferPosition_writeByte st c rest
      have : st._bufferPosition < 128 := by simpa using hfull
      omega

theorem bufferPosition_readLineLoop (loops : Nat) :
    ∀ (st : uEspConfigLibFSEEPROM) (line : CStr),
      (readLineLoop loops st line).2.2._bufferPosition = st._bufferPosition := by
  induction loops with
  | zero => intro st line; rfl
  | succ n ih =>
    intro st line
    rw [readLineLoop]
    simp only
    split
    · rfl
    · split
      · rfl
      · rw [ih]

theorem bufferPosition_closeFile (st : uEspConfigLibFSEEPROM) :
    (closeFile st).2._bufferPosition = st._bufferPosition := by
  unfold closeFile
  split
  · rw [writeFlush_not_open _ (by simp)]
  · split <;> rfl

theorem bufferPosition_reachable (st : uEspConfigLibFSEEPROM) (h : EepromReachable st) :
    st._bufferPosition ≤ 128 := by
  induction h with
  | construct m buffer => simp [constructed]
  | constructDefault status m buffer => simp [constructedDefault]
  | openToRead s _ ih =>
    unfold openToRead
    split
    · exact ih
    · simp
  | openToWrite s _ ih =>
    unfold openToWrite
    split
    · exact ih
    · simp
  | readLine s line _ ih =>
    unfold readLine
    split
    · exact ih
    · rw [bufferPosition_readLineLoop]; exact ih
  | write s data _ ih =>
    unfold write
    split
    · exact ih
    · exact bufferPosition_writeLoop data s ih
  | closeFile s _ ih => rw [bufferPosition_closeFile]; exact ih

/-- C28: in every store reachable from construction (by either constructor, the two-argument
one leaving status and driver arbitrary) by `openToRead`, `openToWrite`, `readLine`,
`write` and `closeFile`, on any medium, the staging length is at most 128; `write` with every
store `_buffer[_bufferPosition] = data[i]` checked against the array bound never leaves the array
and returns what `write` returns; and so do `_writeFlush` and `closeFile` with the store of the
null sentinel checked. -/
theorem C28_staging_buffer_safety (st : uEspConfigLibFSEEPROM) (h : EepromReachable st) :
    st._bufferPosition ≤ 128 ∧
    (∀ data : CStr, writeChecked st data = some (write st data)) ∧
    _writeFlushChecked st = some (_writeFlush st) ∧
    closeFileChecked st = some (closeFile st) := by
  refine ⟨bufferPosition_reachable st h, ?_, writeFlushChecked_eq st, ?_⟩
  · intro data
    unfold writeChecked write
    split
    · rfl
    · exact writeLoopChecked_eq data st
  · unfold closeFileChecked closeFile
    split
    · exact writeFlushChecked_eq _
    · split <;> rfl

theorem C28_staging_buffer_safety_witness :
    (write (openToWrite (constructed blankMedium (fun _ => 'z'))).2
        blockPayload).2._bufferPosition ≤ 128 ∧
    (write (constructedDefault uEspConfigLibFS_STATUS_OPEN_WRITE blankMedium (fun _ => 'z'))
        blockPayload).2._bufferPosition ≤ 128 ∧
    writeChecked
        (write (constructedDefault uEspConfigLibFS_STATUS_OPEN_WRITE blankMedium (fun _ => 'z'))
          blockPayload).2 blockPayload
      = some (write
        (write (constructedDefault uEspConfigLibFS_STATUS_OPEN_WRITE blankMedium (fun _ => 'z'))
          blockPayload).2 blockPayload) :=
  ⟨(C28_staging_buffer_safety _
      (EepromReachable.write _ blockPayload
        (EepromReachable.openToWrite _
          (EepromReachable.construct blankMedium (fun _ => 'z'))))).1,
   (C28_staging_buffer_safety _
      (EepromReachable.write _ blockPayload
        (EepromReachable.constructDefault uEspConfigLibFS_STATUS_OPEN_WRITE blankMedium
          (fun _ => 'z')))).1,
   (C28_staging_buffer_safety _
      (EepromReachable.write _ blockPayload
        (EepromReachable.constructDefault uEspConfigLibFS_STATUS_OPEN_WRITE blankMedium
          (fun _ => 'z')))).2.1 blockPayload⟩

open uEspConfigLibFSEEPROM

/-! ## EEPROM backend: `write` in one call or in two -/

theorem writeOk_writeFlush (st : uEspConfigLibFSEEPROM) :
    (_writeFlush st).2._eeprom.writeOk = st._eeprom.writeOk := by
  unfold _writeFlush eeprom_write
  split
  · rfl
  · split
    · simp only
      split <;> rfl
    · simp only
      split <;> rfl

theorem flags_writeFlush (st : uEspConfigLibFSEEPROM) :
    (_writeFlush st).2._saveLineStart = st._saveLineStart ∧
    (_writeFlush st).2._saveInComment = st._saveInComment := by
  unfold _writeFlush
  split
  · exact ⟨rfl, rfl⟩
  · split <;> exact ⟨rfl, rfl⟩

theorem writeFlush_ok (st : uEspConfigLibFSEEPROM)
    (hst : st._status = uEspConfigLibFS_STATUS_OPEN_WRITE) (hb : 128 ≤ st._bufferPosition)
    (hw : ∀ calls a, st._eeprom.writeOk calls a = true) : (_writeFlush st).1 = true := by
  have h0 : st._bufferPosition ≠ 0 := by omega
  have hlt : ¬ st._bufferPosition < 128 := by omega
  simp [_writeFlush, hst, h0, hlt, eeprom_write, hw]

theorem eeprom_writeByte (st : uEspConfigLibFSEEPROM) (c : Char) (rest : List Char) :
    (writeByte st c rest)._eeprom = st._eeprom := by
  unfold writeByte
  split
  · rfl
  · split
    · rfl
    · split <;> split <;> rfl

theorem writeByte_lookahead (st : uEspConfigLibFSEEPROM) (c : Char) (rest d2 : List Char)
    (h : rest = [] → st._saveLineStart = true → st._saveInComment = false → c = '/' →
      d2.head? ≠ some '/') :
    writeByte st c (rest ++ d2) = writeByte st c rest := by
  cases rest with
  | cons r rs => rfl
  | nil =>
    by_cases hc : c = '/' ∧ d2.head? = some '/' ∧ st._saveLineStart = true
    · rcases hc with ⟨hc1, hc2, hc3⟩
      cases hcom : st._saveInComment
      · exact absurd hc2 (h rfl hc3 hcom hc1)
      · subst hc1
        cases st
        simp only at hcom hc3
        subst hcom
        subst hc3
        simp [writeByte, hc2]
    · unfold writeByte
      by_cases h1 : c = '/'
      · by_cases h2 : d2.head? = some '/'
        · have h3 : ¬ st._saveLineStart = true := fun h3 => hc ⟨h1, h2, h3⟩
          simp [h3]
        · simp [h2]
      · simp [h1]

theorem flags_after_writeByte (st : uEspConfigLibFSEEPROM) (c : Char) (rest : List Char)
    (h0 : c ≠ '\x00') (hl : (writeByte st c rest)._saveLineStart = true)
    (hc : (writeByte st c rest)._saveInComment = false) : (c == '\n' || c == '\r') = true := by
  by_cases hterm : c = '\n' ∨ c = '\r'
  · rcases hterm with h | h <;> simp [h]
  · exfalso
    by_cases hstart : st._saveLineStart = true ∧
        (c = '#' ∨ c = ';' ∨ (c = '/' ∧ rest.head? = some '/'))
    · simp [writeByte, h0, hstart] at hc
    · by_cases hcom : st._saveInComment = false
      · simp [writeByte, h0, hstart, hterm, hcom] at hl
      · simp [writeByte, h0, hstart, hterm, hcom] at hc

theorem writeLoop_append (d1 : List Char) :
    ∀ (st : uEspConfigLibFSEEPROM) (flag : Bool) (d2 : List Char),
      st._status = uEspConfigLibFS_STATUS_OPEN_WRITE →
      (∀ calls a, st._eeprom.writeOk calls a = true) → '\x00' ∉ d1 →
      (st._saveLineStart = true → st._saveInComment = false → flag = true) →
      ¬ (endsInLineInitialSlash flag d1 = true ∧ d2.head? = some '/') →
      writeLoop (d1 ++ d2) st = writeLoop d2 (writeLoop d1 st).2 := by
  induction d1 with
  | nil => intro st flag d2 _ _ _ _ _; rfl
  | cons c rest ih =>
    intro st flag d2 hst hw h0 hflag hsplit
    rw [List.mem_cons, not_or] at h0
    have hc0 : c ≠ '\x00' := fun e => h0.1 e.symm
    -- the step after the flush test, for a store `s` that carries the flags of `st`
    have step : ∀ s : uEspConfigLibFSEEPROM,
        s._status = uEspConfigLibFS_STATUS_OPEN_WRITE →
        (∀ calls a, s._eeprom.writeOk calls a = true) →
        s._saveLineStart = st._saveLineStart → s._saveInComment = st._saveInComment →
        writeLoop (rest ++ d2) (writeByte s c (rest ++ d2))
          = writeLoop d2 (writeLoop rest (writeByte s c rest)).2 := by
      intro s hs hsw hsl hsc
      have hlook : writeByte s c (rest ++ d2) = writeByte s c rest := by
        apply writeByte_lookahead
        intro hrest hl hcom hslash hd2
        rw [hsl] at hl
        rw [hsc] at hcom
        apply hsplit
        subst hrest
        subst hslash
        simp [endsInLineInitialSlash, hflag hl hcom, hd2]
      rw [hlook]
      apply ih (writeByte s c rest) (c == '\n' || c == '\r') d2
      · rw [status_writeByte]; exact hs
      · rw [eeprom_writeByte]; exact hsw
      · exact h0.2
      · intro hl hcom
        exact flags_after_writeByte s c rest hc0 hl hcom
      · intro hbad
        apply hsplit
        cases rest with
        | nil => simp [endsInLineInitialSlash] at hbad
        | cons r rs => exact hbad
    rw [List.cons_append, writeLoop, writeLoop]
    by_cases hfull : st._bufferPosition ≥ uEspConfigLibFSEEPROM_BUFFER_SIZE
    · have hok := writeFlush_ok st hst hfull hw
      simp only [hfull, if_true, hok, Bool.not_true, Bool.false_eq_true, if_false]
      apply step
      · rw [status_writeFlush]; exact hst
      · rw [writeOk_writeFlush]; exact hw
      · exact (flags_writeFlush st).1
      · exact (flags_writeFlush st).2
    · simp only [hfull, if_false]
      exact step st hst hw rfl rfl

/-- C29: in status OPEN_WRITE on a medium whose writes succeed, for C strings `d1` and `d2`,
`write(d1); write(d2)` returns the same result and leaves the same store and medium as
`write(d1 ++ d2)`, unless `d1` ends in a `/` that begins a line and `d2` starts with `/`. -/
theorem C29_write_chunking_independent (st : uEspConfigLibFSEEPROM) (d1 d2 : CStr)
    (hst : st._status = uEspConfigLibFS_STATUS_OPEN_WRITE)
    (hw : ∀ calls a, st._eeprom.writeOk calls a = true) (h0 : '\x00' ∉ d1)
    (hsplit : ¬ (endsInLineInitialSlash st._saveLineStart d1 = true ∧ d2.head? = some '/')) :
    write (write st d1).2 d2 = write st (d1 ++ d2) := by
  have hst1 : (write st d1).2._status = uEspConfigLibFS_STATUS_OPEN_WRITE := by
    rw [status_write]; exact hst
  have e1 : write st d1 = writeLoop d1 st := by simp [write, hst]
  have e2 : write st (d1 ++ d2) = writeLoop (d1 ++ d2) st := by simp [write, hst]
  have e3 : write (write st d1).2 d2 = writeLoop d2 (write st d1).2 := by
    generalize write st d1 = r at hst1
    simp [write, hst1]
  rw [e3, e2, e1]
  exact (writeLoop_append d1 st st._saveLineStart d2 hst hw h0 (fun h _ => h) hsplit).symm

theorem C29_write_chunking_independent_witness :
    write (write (openToWrite freshStore).2 "# com".toList).2 "ment\nreal=1\n".toList
      = write (openToWrite freshStore).2 ("# com".toList ++ "ment\nreal=1\n".toList) :=
  C29_write_chunking_independent (openToWrite freshStore).2 "# com".toList
    "ment\nreal=1\n".toList rfl (fun _ _ => rfl) (by decide) (by decide)

open uEspConfigLibFSEEPROM

/-! ## EEPROM backend: the write filter -/

open uEspConfigLibFSEEPROM

open uEspConfigLibFSEEPROM

theorem splitAtLineFeed_line (l r : CStr) (hl : '\n' ∉ l) :
    splitAtLineFeed (l ++ '\n' :: r) = l :: splitAtLineFeed r := by
  induction l with
  | nil => simp [splitAtLineFeed]
  | cons c rest ih =>
    rw [List.mem_cons, not_or] at hl
    have hc : ¬ c = '\n' := fun e => hl.1 e.symm
    rw [List.cons_append, splitAtLineFeed, if_neg hc, ih hl.2]

theorem splitAtLineFeed_withLineFeeds (ls : List CStr) (h : ∀ l ∈ ls, '\n' ∉ l) :
    splitAtLineFeed (withLineFeeds ls) = ls ++ [[]] := by
  induction ls with
  | nil => rfl
  | cons l rest ih =>
    rw [withLineFeeds_cons, splitAtLineFeed_line l _ (h l (List.mem_cons_self _ _)),
      ih (fun x hx => h x (List.mem_cons_of_mem _ hx))]
    rfl

theorem flatten_slotWrites_lines (list : List uEspConfigLibList) :
    ((list.map slotWrites).flatten).flatten = withLineFeeds (list.map slotLines).flatten := by
  induction list with
  | nil => rfl
  | cons s rest ih =>
    rw [List.map_cons, List.flatten_cons, List.flatten_append, ih, slotWrites_flatten,
      List.map_cons, List.flatten_cons, withLineFeeds_append]

theorem writesOf_saveConfigFile {σ : Type} (fs : FSInterface σ) (st : σ)
    (list : List uEspConfigLibList) (hopen : (fs.openToWrite st).1 = true) :
    (writesOf (saveConfigFile (recordFS fs) (st, []) list).2.2).flatten
      = withLineFeeds (bannerLines ++ (list.map slotLines).flatten) := by
  rw [saveConfigFile_recordFS, if_pos hopen]
  have h : writesOf (FSCall.openToWrite ::
      ((bannerWrites ++ (list.map slotWrites).flatten).map FSCall.write ++ [FSCall.closeFile]))
      = bannerWrites ++ (list.map slotWrites).flatten := by
    have h1 : writesOf [FSCall.closeFile] = [] := rfl
    show writesOf (_ ++ _) = _
    rw [writesOf_append, writesOf_map_write, h1, List.append_nil]
  simp only [h, List.flatten_append, flatten_slotWrites_lines, bannerWrites_flatten,
    withLineFeeds_append]

/-- C30: let the names be pairwise distinct, non-empty, free of `=` and of line terminators,
without outer whitespace and without a comment marker at their start, the values free of line
terminators and without outer whitespace, the descriptions and defaults free of line
terminators. Then, on any backend whose `openToWrite` succeeds, splitting at the line feeds the
concatenation of the strings `saveConfigFile` writes and applying `_parseConfigLine` to the
pieces in order, on the registry rebuilt by the same `addOption` calls, gives every option the
value it had when saved. -/
theorem C30_text_protocol_round_trip {σ : Type} (fs : FSInterface σ) (st : σ)
    (list : List uEspConfigLibList) (hopen : (fs.openToWrite st).1 = true)
    (hu : (names list).Nodup)
    (hplain : ∀ s ∈ list, plainName s.name = true ∧ plainValue s.value = true)
    (hd : ∀ s ∈ list, '\n' ∉ s.description ∧ '\r' ∉ s.description)
    (hf : ∀ s ∈ list, '\n' ∉ s.defaultValue ∧ '\r' ∉ s.defaultValue) :
    ∀ s ∈ list,
      getPointer
        ((splitAtLineFeed
            (writesOf (saveConfigFile (recordFS fs) (st, []) list).2.2).flatten).foldl
          _parseConfigLine (defineAll [] (list.map toDef)))
        s.name = some s.value := by
  have hlines := savedLines_no_line_feed list
    (fun s hs => (plainName_spec _ (hplain s hs).1).2.2.1)
    (fun s hs => (plainValue_spec _ (hplain s hs).2).2)
    (fun s hs => (hd s hs).1) (fun s hs => (hf s hs).1)
  rw [writesOf_saveConfigFile fs st list hopen, splitAtLineFeed_withLineFeeds _ hlines,
    List.foldl_append, List.foldl_append, foldl_bannerLines, foldl_all_slotLines list _ hplain]
  simp only [List.foldl_cons, List.foldl_nil, parseConfigLine_nil]
  apply getPointer_foldl_set list hu
  intro s hs
  rw [names_fresh list hu]
  exact List.mem_map_of_mem (fun s => s.name) hs

theorem C30_text_protocol_round_trip_witness :
    getPointer
        ((splitAtLineFeed
            (writesOf (saveConfigFile (recordFS lineStoreFS) (⟨[], []⟩, [])
              singleLineRegistry).2.2).flatten).foldl
          _parseConfigLine (defineAll [] (singleLineRegistry.map toDef)))
        "a".toList = some "k=v".toList ∧
    getPointer
        ((splitAtLineFeed
            (writesOf (saveConfigFile (recordFS lineStoreFS) (⟨[], []⟩, [])
              singleLineRegistry).2.2).flatten).foldl
          _parseConfigLine (defineAll [] (singleLineRegistry.map toDef)))
        "wifi ssid".toList = some "".toList :=
  ⟨C30_text_protocol_round_trip lineStoreFS ⟨[], []⟩ singleLineRegistry rfl (by decide)
      (by decide) (by decide) (by decide)
      { name := "a".toList, description := " ; x = y # //".toList,
        defaultValue := "a = b ".toList, value := "k=v".toList, option := 0 } (by decide),
   C30_text_protocol_round_trip lineStoreFS ⟨[], []⟩ singleLineRegistry rfl (by decide)
      (by decide) (by decide) (by decide)
      { name := "wifi ssid".toList, description := "".toList, defaultValue := "#".toList,
        value := "".toList, option := 1 } (by decide)⟩

end uEspConfigLib
